import Mathlib

/-!
Verification of the blinkey-ide encrypted chat-history store.

This file gives a shallow embedding of the chat persistence layer:

* `chat-encryption.ts` — AES-256-GCM encryption keyed by a PBKDF2 derivation
  of the project-root string (`deriveKey`, `encryptChatData`,
  `decryptChatData`, `isEncrypted`);
* `chat-encoding.ts` — the base64 codec (`encodeChatData`, `decodeChatData`,
  `isEncoded`);
* the two `ChatHistoryServiceImpl` variants (the encryption-based one in
  `chat-history-service-impl.ts` and the base64-encoding one bundled in the
  electron app), modelled as functions from an explicit file-system state to
  a result together with the ordered trace of file operations performed.

Modelling conventions:

* A JavaScript string is modelled as a `List Char` of Unicode scalar values
  (`JStr`); this matches well-formed UTF-16 strings, which is the only kind
  the store produces.
* Bytes are `Nat` values; functions producing bytes keep them below 256
  either by construction or by an explicit `% 256`.
* Node's `Buffer.from(s, 'base64')` never throws: it skips characters
  outside the base64 alphabet.  The lenient base64 decoder below mirrors
  that, so the `try`/`catch` around it in the source is dead code.
* Nondeterministic inputs of the source (the random IV from
  `randomBytes(16)`, `randomUUID()`, `new Date().toISOString()`) are passed
  as explicit parameters.
* File I/O is modelled by an explicit state (`ChatState`): each file slot is
  absent (ENOENT), has content, or fails to read with a non-ENOENT I/O
  error.  Each operation returns its result plus the ordered list of write /
  unlink operations it performed.
-/

/-- A JavaScript string, modelled as its sequence of Unicode scalar values. -/
abbrev JStr := List Char

/-- Convert a Lean string literal into the `JStr` model. -/
def strChars (s : String) : JStr := s.toList

/-- The JavaScript whitespace class: the characters matched by `\s` in a
regular expression, which is also the set stripped by `String.prototype.trim`. -/
def jsSpace (c : Char) : Bool :=
  c = ' ' ∨ c = '\t' ∨ c = '\n' ∨ c.toNat = 11 ∨ c.toNat = 12 ∨ c = '\r' ∨
  c.toNat = 0xa0 ∨ c.toNat = 0x1680 ∨
  (0x2000 ≤ c.toNat ∧ c.toNat ≤ 0x200a) ∨
  c.toNat = 0x2028 ∨ c.toNat = 0x2029 ∨ c.toNat = 0x202f ∨
  c.toNat = 0x205f ∨ c.toNat = 0x3000 ∨ c.toNat = 0xfeff

/-- JavaScript `String.prototype.trim`. -/
def jsTrim (s : JStr) : JStr :=
  ((s.dropWhile jsSpace).reverse.dropWhile jsSpace).reverse

/-- JavaScript `s.substring(0, n)` (also used for `s.substring(0, n)`-style
previews); clamps at the end of the string like `substring` does. -/
def jsTake (n : Nat) (s : JStr) : JStr := s.take n

/-- JavaScript `String.prototype.split` with a single-character separator:
`"a:b".split(':')` gives `["a", "b"]`, `"".split(':')` gives `[""]`, and
empty segments are kept. -/
def splitOnChar (sep : Char) : JStr → List JStr
  | [] => [[]]
  | c :: rest =>
    if c = sep then
      [] :: splitOnChar sep rest
    else
      match splitOnChar sep rest with
      | h :: t => (c :: h) :: t
      | [] => [[c]]

/-- Whether a string starts with `\x7b` or `[` — the JSON-sniffing test
`data.trim().startsWith('\x7b') || data.trim().startsWith('[')` applies this
to trimmed content. -/
def startsWithBracket : JStr → Bool
  | [] => false
  | c :: _ => c = '{' ∨ c = '['

/-! ## Base64 (Node `Buffer` semantics) -/

/-- The base64 alphabet in index order. -/
def b64chars : List Char :=
  strChars ("ABCDEFGHIJKLMNOPQRSTUVWXYZabcdefghijklmnopqrstuvwxyz0123456789+/")

/-- The alphabet character for a 6-bit value. -/
def b64c (n : Nat) : Char := b64chars.getD (n % 64) 'A'

/-- The 6-bit value of an alphabet character; `none` for every other
character (including `=`), which Node's base64 decoder skips. -/
def b64val (c : Char) : Option Nat := b64chars.findIdx? (· = c)

/-- Standard base64 encoding with `=` padding, as produced by
`Buffer.prototype.toString('base64')`. -/
def base64Encode : List Nat → JStr
  | a :: b :: c :: rest =>
    b64c (a / 4) :: b64c (a % 4 * 16 + b / 16) :: b64c (b % 16 * 4 + c / 64) ::
      b64c (c % 64) :: base64Encode rest
  | [a, b] => [b64c (a / 4), b64c (a % 4 * 16 + b / 16), b64c (b % 16 * 4), '=']
  | [a] => [b64c (a / 4), b64c (a % 4 * 16), '=', '=']
  | [] => []

/-- Decode a stream of 6-bit values four at a time; a trailing group of
three values yields two bytes, of two values one byte, and a single
leftover value is dropped — Node's handling of unpadded input. -/
def decodeQuads : List Nat → List Nat
  | s1 :: s2 :: s3 :: s4 :: rest =>
    (s1 * 4 + s2 / 16) :: (s2 % 16 * 16 + s3 / 4) :: (s3 % 4 * 64 + s4) ::
      decodeQuads rest
  | [s1, s2, s3] => [s1 * 4 + s2 / 16, s2 % 16 * 16 + s3 / 4]
  | [s1, s2] => [s1 * 4 + s2 / 16]
  | _ => []

/-- `Buffer.from(s, 'base64')`.  Never fails: characters outside the
alphabet (including padding and whitespace) are skipped, then the remaining
6-bit values are decoded in groups. -/
def base64DecodeLenient (s : JStr) : List Nat := decodeQuads (s.filterMap b64val)

/-- Lower-case hex digit for a value below 16. -/
def hexDigit (n : Nat) : Char := (strChars ("0123456789abcdef")).getD (n % 16) '0'

/-- `Buffer.prototype.toString('hex')`. -/
def hexOf (bytes : List Nat) : JStr :=
  bytes.flatMap (fun b => [hexDigit (b / 16 % 16), hexDigit (b % 16)])

/-! ## UTF-8 (Node `Buffer.from(s, 'utf8')` / `toString('utf8')`) -/

/-- UTF-8 encoding of one scalar value. -/
def utf8EncodeChar (c : Char) : List Nat :=
  let v := c.toNat
  if v < 0x80 then [v]
  else if v < 0x800 then [0xc0 + v / 64, 0x80 + v % 64]
  else if v < 0x10000 then [0xe0 + v / 4096, 0x80 + v / 64 % 64, 0x80 + v % 64]
  else [0xf0 + v / 262144, 0x80 + v / 4096 % 64, 0x80 + v / 64 % 64, 0x80 + v % 64]

/-- `Buffer.from(s, 'utf8')`. -/
def utf8Encode (s : JStr) : List Nat := s.flatMap utf8EncodeChar

/-- The replacement character U+FFFD emitted for undecodable bytes. -/
def replChar : Char := Char.ofNat 0xfffd

/-- Build a `Char` from a scalar value, falling back to U+FFFD when the
value is not a valid scalar. -/
def mkChar (n : Nat) : Char := if _h : n.isValidChar then Char.ofNat n else replChar

/-- Whether a byte is a UTF-8 continuation byte. -/
def isCont (b : Nat) : Bool := 0x80 ≤ b ∧ b < 0xc0

/-- Decode one code point at the head: given the first byte and the
remaining bytes, return the decoded character and how many of the remaining
bytes it consumed.  Malformed input yields U+FFFD consuming nothing extra. -/
def utf8Step (b1 : Nat) (bs : List Nat) : Char × Nat :=
  if b1 < 0x80 then (mkChar b1, 0)
  else if b1 < 0xc0 then (replChar, 0)
  else if b1 < 0xe0 then
    let b2 := bs.getD 0 0
    if 1 ≤ bs.length ∧ isCont b2 ∧ 0x80 ≤ (b1 - 0xc0) * 64 + (b2 - 0x80) then
      (mkChar ((b1 - 0xc0) * 64 + (b2 - 0x80)), 1)
    else (replChar, 0)
  else if b1 < 0xf0 then
    let b2 := bs.getD 0 0
    let b3 := bs.getD 1 0
    if 2 ≤ bs.length ∧ isCont b2 ∧ isCont b3 ∧
        0x800 ≤ (b1 - 0xe0) * 4096 + (b2 - 0x80) * 64 + (b3 - 0x80) ∧
        ((b1 - 0xe0) * 4096 + (b2 - 0x80) * 64 + (b3 - 0x80)).isValidChar then
      (mkChar ((b1 - 0xe0) * 4096 + (b2 - 0x80) * 64 + (b3 - 0x80)), 2)
    else (replChar, 0)
  else if b1 < 0xf8 then
    let b2 := bs.getD 0 0
    let b3 := bs.getD 1 0
    let b4 := bs.getD 2 0
    if 3 ≤ bs.length ∧ isCont b2 ∧ isCont b3 ∧ isCont b4 ∧
        0x10000 ≤ (b1 - 0xf0) * 262144 + (b2 - 0x80) * 4096 +
          (b3 - 0x80) * 64 + (b4 - 0x80) ∧
        (b1 - 0xf0) * 262144 + (b2 - 0x80) * 4096 +
          (b3 - 0x80) * 64 + (b4 - 0x80) < 0x110000 then
      ((mkChar ((b1 - 0xf0) * 262144 + (b2 - 0x80) * 4096 +
        (b3 - 0x80) * 64 + (b4 - 0x80))), 3)
    else (replChar, 0)
  else (replChar, 0)

/-- `Buffer.prototype.toString('utf8')`: total decoding, emitting U+FFFD for
malformed input.  (The exact resynchronisation behaviour on malformed bytes
approximates Node's; every property proved below only decodes well-formed
sequences.) -/
def utf8DecodeGo : Nat → List Nat → JStr
  | 0, _ => []
  | _ + 1, [] => []
  | fuel + 1, b1 :: bs =>
    (utf8Step b1 bs).1 :: utf8DecodeGo fuel (bs.drop (utf8Step b1 bs).2)

/-- `Buffer.prototype.toString('utf8')` (continued): every step consumes at
least one byte, so `bs.length` steps of fuel always suffice. -/
def utf8DecodeLenient (bs : List Nat) : JStr := utf8DecodeGo bs.length bs

/-! ## SHA-256, HMAC, PBKDF2 (the `node:crypto` primitives behind
`pbkdf2Sync(..., 'sha256')`).  The round constants are computed from their
FIPS-180-4 definition (fractional parts of square/cube roots of the first
primes) instead of being transcribed as tables. -/

/-- Truncate to 32 bits. -/
def w32 (x : Nat) : Nat := x % 4294967296

/-- 32-bit right rotation. -/
def rotr32 (r x : Nat) : Nat := w32 (x / 2 ^ r + x % 2 ^ r * 2 ^ (32 - r))

/-- 32-bit right shift. -/
def shr32 (r x : Nat) : Nat := x / 2 ^ r

/-- The first 64 primes, used to derive the SHA-256 constants. -/
def primes64 : List Nat :=
  [2, 3, 5, 7, 11, 13, 17, 19, 23, 29, 31, 37, 41, 43, 47, 53,
   59, 61, 67, 71, 73, 79, 83, 89, 97, 101, 103, 107, 109, 113, 127, 131,
   137, 139, 149, 151, 157, 163, 167, 173, 179, 181, 191, 193, 197, 199, 211, 223,
   227, 229, 233, 239, 241, 251, 257, 263, 269, 271, 277, 281, 283, 293, 307, 311]

/-- Integer cube root by bounded binary search. -/
def natCbrtGo (n : Nat) : Nat → Nat → Nat → Nat
  | lo, _, 0 => lo
  | lo, hi, fuel + 1 =>
    if hi ≤ lo + 1 then lo
    else
      let mid := (lo + hi) / 2
      if mid * mid * mid ≤ n then natCbrtGo n mid hi fuel else natCbrtGo n lo mid fuel

/-- Integer cube root. -/
def natCbrt (n : Nat) : Nat := natCbrtGo n 0 (n + 2) 256

/-- SHA-256 round constants: first 32 bits of the fractional parts of the
cube roots of the first 64 primes. -/
def sha256K : List Nat := primes64.map (fun p => natCbrt (p * 2 ^ 96) % 4294967296)

/-- SHA-256 initial hash: first 32 bits of the fractional parts of the
square roots of the first 8 primes. -/
def sha256H0 : List Nat := (primes64.take 8).map (fun p => Nat.sqrt (p * 2 ^ 64) % 4294967296)

/-- Group bytes into big-endian 32-bit words. -/
def bytesToWords : List Nat → List Nat
  | b1 :: b2 :: b3 :: b4 :: rest =>
    (b1 * 16777216 + b2 * 65536 + b3 * 256 + b4) :: bytesToWords rest
  | _ => []

/-- Big-endian bytes of a value, fixed width `n`. -/
def natToBytes (n x : Nat) : List Nat :=
  (List.range n).map (fun i => x / 2 ^ ((n - 1 - i) * 8) % 256)

/-- Big-endian 4-byte serialisation of each word. -/
def wordsToBytes (ws : List Nat) : List Nat := ws.flatMap (natToBytes 4)

/-- Split a list into groups of 16. -/
def chunks16 : List Nat → List (List Nat)
  | b1 :: b2 :: b3 :: b4 :: b5 :: b6 :: b7 :: b8 ::
      b9 :: b10 :: b11 :: b12 :: b13 :: b14 :: b15 :: b16 :: rest =>
    [b1, b2, b3, b4, b5, b6, b7, b8, b9, b10, b11, b12, b13, b14, b15, b16] ::
      chunks16 rest
  | [] => []
  | other => [other]

/-- Split a list into groups of 4. -/
def chunks4 : List Nat → List (List Nat)
  | a :: b :: c :: d :: rest => [a, b, c, d] :: chunks4 rest
  | [] => []
  | other => [other]

/-- SHA-256 padding: `0x80`, zeros, 64-bit big-endian bit length. -/
def sha256Pad (msg : List Nat) : List Nat :=
  msg ++ 0x80 :: List.replicate ((119 - msg.length % 64) % 64) 0 ++
    natToBytes 8 (msg.length * 8)

/-- 32-bit complement. -/
def cpl32 (x : Nat) : Nat := 4294967295 ^^^ w32 x

/-- SHA-256 message-schedule extension by one word. -/
def sha256Extend (ws : List Nat) : List Nat :=
  let n := ws.length
  let s0 := fun x => rotr32 7 x ^^^ rotr32 18 x ^^^ shr32 3 x
  let s1 := fun x => rotr32 17 x ^^^ rotr32 19 x ^^^ shr32 10 x
  ws ++ [w32 (s1 (ws.getD (n - 2) 0) + ws.getD (n - 7) 0 +
    s0 (ws.getD (n - 15) 0) + ws.getD (n - 16) 0)]

/-- One SHA-256 compression round on the state `[a,b,c,d,e,f,g,h]`. -/
def sha256Round (k w : Nat) (st : List Nat) : List Nat :=
  match st with
  | [a, b, c, d, e, f, g, h] =>
    let ch := (e &&& f) ^^^ (cpl32 e &&& g)
    let maj := (a &&& b) ^^^ (a &&& c) ^^^ (b &&& c)
    let bs1 := rotr32 6 e ^^^ rotr32 11 e ^^^ rotr32 25 e
    let bs0 := rotr32 2 a ^^^ rotr32 13 a ^^^ rotr32 22 a
    let t1 := w32 (h + bs1 + ch + k + w)
    let t2 := w32 (bs0 + maj)
    [w32 (t1 + t2), a, b, c, w32 (d + t1), e, f, g]
  | other => other

/-- SHA-256 compression of one 16-word block. -/
def sha256Compress (h8 block16 : List Nat) : List Nat :=
  let ws := (List.range 48).foldl (fun ws _ => sha256Extend ws) block16
  let st := (List.zip sha256K ws).foldl (fun st kw => sha256Round kw.1 kw.2 st) h8
  (List.zip h8 st).map (fun p => w32 (p.1 + p.2))

/-- SHA-256 of a byte sequence. -/
def sha256 (msg : List Nat) : List Nat :=
  wordsToBytes ((chunks16 (bytesToWords (sha256Pad msg))).foldl sha256Compress sha256H0)

/-- HMAC-SHA-256. -/
def hmacSha256 (key msg : List Nat) : List Nat :=
  let k0 := if 64 < key.length then sha256 key else key
  let k := k0 ++ List.replicate (64 - k0.length) 0
  sha256 (k.map (fun b => b ^^^ 0x5c) ++ sha256 (k.map (fun b => b ^^^ 0x36) ++ msg))

/-- One PBKDF2-HMAC-SHA-256 output block (`F(P, S, c, i)`). -/
def pbkdf2Block (pw salt : List Nat) (iters i : Nat) : List Nat :=
  let u1 := hmacSha256 pw (salt ++ natToBytes 4 i)
  ((List.range (iters - 1)).foldl
    (fun acc _ =>
      let u := hmacSha256 pw acc.2
      (List.zipWith (fun a b => a ^^^ b) acc.1 u, u))
    (u1, u1)).1

/-- `crypto.pbkdf2Sync(password, salt, iterations, keylen, 'sha256')`. -/
def pbkdf2Sha256 (pw salt : List Nat) (iters dkLen : Nat) : List Nat :=
  (((List.range ((dkLen + 31) / 32)).flatMap
    (fun i => pbkdf2Block pw salt iters (i + 1)))).take dkLen

/-! ## AES-256 and GCM (the `aes-256-gcm` cipher of `createCipheriv`).
The S-box is computed from its definition (inversion in GF(2^8) followed by
the affine transform) rather than transcribed. -/

/-- Multiplication by `x` in GF(2^8) modulo `x^8 + x^4 + x^3 + x + 1`. -/
def xtime (b : Nat) : Nat := if b < 128 then b * 2 else b * 2 ^^^ 0x11b

/-- GF(2^8) product, 8 shift-and-add steps. -/
def gfMulGo : Nat → Nat → Nat → Nat
  | 0, _, _ => 0
  | fuel + 1, a, b =>
    (if b % 2 = 1 then a else 0) ^^^ gfMulGo fuel (xtime a) (b / 2)

/-- GF(2^8) product. -/
def gfMul (a b : Nat) : Nat := gfMulGo 8 a b

/-- GF(2^8) power. -/
def gfPow (a : Nat) : Nat → Nat
  | 0 => 1
  | n + 1 => gfMul a (gfPow a n)

/-- GF(2^8) inverse (0 maps to 0). -/
def gfInv (a : Nat) : Nat := gfPow a 254

/-- 8-bit left rotation. -/
def rotl8 (r x : Nat) : Nat := (x * 2 ^ r + x / 2 ^ (8 - r)) % 256

/-- The AES S-box. -/
def sbox (b : Nat) : Nat :=
  let i := gfInv (b % 256)
  i ^^^ rotl8 1 i ^^^ rotl8 2 i ^^^ rotl8 3 i ^^^ rotl8 4 i ^^^ 0x63

/-- Apply the S-box to each byte of a 32-bit word. -/
def subWord (w : Nat) : Nat :=
  sbox (w / 16777216) * 16777216 + sbox (w / 65536 % 256) * 65536 +
    sbox (w / 256 % 256) * 256 + sbox (w % 256)

/-- Rotate a 32-bit word left by one byte. -/
def rotWord (w : Nat) : Nat := w % 16777216 * 256 + w / 16777216

/-- AES round constant as a 32-bit word. -/
def rcon (i : Nat) : Nat := gfPow 2 (i - 1) * 16777216

/-- AES-256 key expansion: 8 key words extended to 60 round-key words. -/
def keyWords (key : List Nat) : List Nat :=
  (List.range 52).foldl
    (fun ws j =>
      let i := j + 8
      let prev := ws.getD (i - 1) 0
      let t :=
        if i % 8 = 0 then subWord (rotWord prev) ^^^ rcon (i / 8)
        else if i % 8 = 4 then subWord prev
        else prev
      ws ++ [ws.getD (i - 8) 0 ^^^ t])
    (bytesToWords key)

/-- The 16 bytes of round key `r`. -/
def roundKey (ws : List Nat) (r : Nat) : List Nat := wordsToBytes ((ws.drop (4 * r)).take 4)

/-- ShiftRows on the flat byte order `state[r + 4c]`. -/
def shiftRows (s : List Nat) : List Nat :=
  (List.range 16).map (fun i => s.getD (i % 4 + 4 * ((i / 4 + i % 4) % 4)) 0)

/-- MixColumns on one 4-byte column. -/
def mixCol : List Nat → List Nat
  | [a0, a1, a2, a3] =>
    [gfMul 2 a0 ^^^ gfMul 3 a1 ^^^ a2 ^^^ a3,
     a0 ^^^ gfMul 2 a1 ^^^ gfMul 3 a2 ^^^ a3,
     a0 ^^^ a1 ^^^ gfMul 2 a2 ^^^ gfMul 3 a3,
     gfMul 3 a0 ^^^ a1 ^^^ a2 ^^^ gfMul 2 a3]
  | other => other

/-- MixColumns on the full state. -/
def mixColumns (s : List Nat) : List Nat := (chunks4 s).flatMap mixCol

/-- Byte-wise XOR of two equal-length byte lists. -/
def xorBytes (a b : List Nat) : List Nat := List.zipWith (fun x y => x ^^^ y) a b

/-- AES-256 block encryption (14 rounds). -/
def aesEncryptBlock (key block : List Nat) : List Nat :=
  let ws := keyWords key
  let s0 := xorBytes block (roundKey ws 0)
  let sN := (List.range 13).foldl
    (fun s i => xorBytes (mixColumns (shiftRows (s.map sbox))) (roundKey ws (i + 1))) s0
  xorBytes (shiftRows (sN.map sbox)) (roundKey ws 14)

/-- Big-endian byte list to `Nat`. -/
def bytesToNatBE (bs : List Nat) : Nat := bs.foldl (fun acc b => acc * 256 + b % 256) 0

/-- GF(2^128) product in the GCM bit order (bit 0 is the most significant). -/
def gf128MulGo : Nat → Nat → Nat → Nat → Nat
  | 0, z, _, _ => z
  | fuel + 1, z, v, x =>
    let z' := if x / 2 ^ 127 % 2 = 1 then z ^^^ v else z
    let v' := if v % 2 = 1 then v / 2 ^^^ 0xe1 * 2 ^ 120 else v / 2
    gf128MulGo fuel z' v' (x * 2 % 2 ^ 128)

/-- GF(2^128) product. -/
def gf128Mul (x y : Nat) : Nat := gf128MulGo 128 0 y x

/-- GHASH over a list of 128-bit blocks. -/
def ghash (h : Nat) (blocks : List Nat) : Nat :=
  blocks.foldl (fun y b => gf128Mul (y ^^^ b) h) 0

/-- Bytes to zero-right-padded 128-bit blocks. -/
def padBlocks (bs : List Nat) : List Nat :=
  (chunks16 bs).map (fun c => bytesToNatBE (c ++ List.replicate (16 - c.length) 0))

/-- The GCM hash subkey `H = E_K(0^128)`. -/
def gcmH (key : List Nat) : Nat := bytesToNatBE (aesEncryptBlock key (List.replicate 16 0))

/-- The GCM pre-counter block `J0`; the store always passes a 16-byte IV, so
the GHASH branch applies. -/
def gcmJ0 (key iv : List Nat) : Nat :=
  if iv.length = 12 then bytesToNatBE iv * 4294967296 + 1
  else ghash (gcmH key) (padBlocks iv ++ [iv.length * 8])

/-- Increment the low 32 bits of a counter block. -/
def inc32 (x : Nat) : Nat :=
  x / 4294967296 * 4294967296 + (x % 4294967296 + 1) % 4294967296

/-- Iterated `inc32`. -/
def inc32Iter : Nat → Nat → Nat
  | 0, x => x
  | n + 1, x => inc32 (inc32Iter n x)

/-- Byte `i` of the GCM CTR keystream (counter blocks start at
`inc32(J0)`). -/
def gcmKeystreamByte (key iv : List Nat) (i : Nat) : Nat :=
  (aesEncryptBlock key (natToBytes 16 (inc32Iter (i / 16 + 1) (gcmJ0 key iv)))).getD
    (i % 16) 0 % 256

/-- The first `n` GCM keystream bytes. -/
def gcmKeystream (key iv : List Nat) (n : Nat) : List Nat :=
  (List.range n).map (gcmKeystreamByte key iv)

/-- GCM CTR transform (identical for encryption and decryption). -/
def ctrXor (key iv data : List Nat) : List Nat :=
  List.zipWith (fun p k => p ^^^ k) data (gcmKeystream key iv data.length)

/-- The GCM length block for empty AAD and a ciphertext of `ctLen` bytes. -/
def gcmLenBlock (ctLen : Nat) : Nat := ctLen * 8

/-- The 16-byte GCM authentication tag for empty AAD. -/
def gcmTag (key iv ct : List Nat) : List Nat :=
  let h := gcmH key
  let s := ghash h (padBlocks ct ++ [gcmLenBlock ct.length])
  natToBytes 16 (s ^^^ bytesToNatBE (aesEncryptBlock key (natToBytes 16 (gcmJ0 key iv))))

namespace ChatEncryption

/-- `deriveKey` from `chat-encryption.ts`: a PBKDF2-derived salt (1000
iterations, fixed label) feeding a second PBKDF2 derivation (100000
iterations, 32-byte key), both keyed by the project-root string alone. -/
def deriveKey (projectRoot : JStr) : List Nat :=
  let salt := pbkdf2Sha256 (utf8Encode projectRoot)
    (utf8Encode (strChars ("blinky-chat-encryption-salt"))) 1000 32
  pbkdf2Sha256 (utf8Encode projectRoot) (utf8Encode (hexOf salt)) 100000 32

/-- `encryptChatData`: AES-256-GCM with a random 16-byte IV (passed here as
the explicit `iv` argument), emitting `base64(iv):base64(tag):base64(ct)`. -/
def encryptChatData (data projectRoot : JStr) (iv : List Nat) : JStr :=
  let key := deriveKey projectRoot
  let ct := ctrXor key iv (utf8Encode data)
  let tag := gcmTag key iv ct
  base64Encode iv ++ ':' :: (base64Encode tag ++ ':' :: base64Encode ct)

/-- The tag lengths `setAuthTag` accepts for GCM. -/
def tagLenOk (l : Nat) : Bool := l = 4 ∨ l = 8 ∨ (12 ≤ l ∧ l ≤ 16)

/-- `decryptChatData`: split on `:`, require exactly 3 segments, decode the
segments leniently, reject an empty IV (`createDecipheriv`) and an invalid
tag length (`setAuthTag`), then verify the (possibly truncated) tag and
return the plaintext only when it matches; `none` models a throw. -/
def decryptChatData (encryptedData projectRoot : JStr) : Option JStr :=
  let parts := splitOnChar ':' encryptedData
  if parts.length = 3 then
    let iv := base64DecodeLenient (parts.getD 0 [])
    let tag := base64DecodeLenient (parts.getD 1 [])
    let ct := base64DecodeLenient (parts.getD 2 [])
    if iv.length = 0 then none
    else if tagLenOk tag.length = false then none
    else
      let key := deriveKey projectRoot
      if (gcmTag key iv ct).take tag.length = tag then
        some (utf8DecodeLenient (ctrXor key iv ct))
      else none
  else none

/-- The per-segment check of `isEncrypted`: `Buffer.from(part, 'base64')`
inside `try`/`catch`.  The decode is total, so the check always succeeds. -/
def segmentDecodes (part : JStr) : Bool := (some (base64DecodeLenient part)).isSome

/-- `isEncrypted`: exactly 3 colon-separated segments, every segment passing
the (vacuous) base64 check. -/
def isEncrypted (data : JStr) : Bool :=
  let parts := splitOnChar ':' data
  parts.length == 3 && parts.all segmentDecodes

end ChatEncryption

namespace ChatEncoding

/-- `encodeChatData` from `chat-encoding.ts`: plain base64 of the UTF-8
bytes; the `projectRoot` parameter is unused (kept for API compatibility). -/
def encodeChatData (data : JStr) (_projectRoot : JStr) : JStr :=
  base64Encode (utf8Encode data)

/-- `decodeChatData`: `Buffer.from(data, 'base64').toString('utf8')`.  Both
steps are total, so the `catch` branch of the source (the `Legacy encrypted`
error and the plain-text fallback) is unreachable and the function never
throws. -/
def decodeChatData (encodedData : JStr) (_projectRoot : JStr) : JStr :=
  utf8DecodeLenient (base64DecodeLenient encodedData)

/-- `isEncoded`: 3 colon-separated segments mean the legacy encrypted
format; content whose trimmed text starts with `\x7b`/`[` is plain JSON;
otherwise the base64-decoded content is sniffed the same way (the decode
itself cannot throw, so the `catch` branch returning false is dead). -/
def isEncoded (data : JStr) : Bool :=
  if (splitOnChar ':' data).length == 3 then true
  else if startsWithBracket (jsTrim data) then false
  else startsWithBracket (jsTrim (utf8DecodeLenient (base64DecodeLenient data)))

end ChatEncoding

/-! ## JSON values, `JSON.parse` and `JSON.stringify(·, null, 2)` -/

mutual
/-- A JSON value.  Numbers keep their source text: the store only ever
serialises strings, arrays and objects, so no numeric semantics is needed. -/
inductive Json where
  | null
  | bool (b : Bool)
  | num (raw : List Char)
  | str (s : List Char)
  | arr (xs : JsonList)
  | obj (fields : JsonFields)
  deriving DecidableEq

/-- A list of JSON values (spelled out so equality can be derived). -/
inductive JsonList where
  | nil
  | cons (hd : Json) (tl : JsonList)
  deriving DecidableEq

/-- Object fields in insertion order. -/
inductive JsonFields where
  | nil
  | cons (k : List Char) (v : Json) (tl : JsonFields)
  deriving DecidableEq
end

/-- Build a `JsonList`. -/
def jlistOf : List Json → JsonList
  | [] => .nil
  | j :: r => .cons j (jlistOf r)

/-- Flatten a `JsonList`. -/
def jlistToList : JsonList → List Json
  | .nil => []
  | .cons j r => j :: jlistToList r

/-- Build `JsonFields`. -/
def jfieldsOf : List (JStr × Json) → JsonFields
  | [] => .nil
  | (k, v) :: r => .cons k v (jfieldsOf r)

/-- First field with the given name. -/
def getField : JsonFields → JStr → Option Json
  | .nil, _ => none
  | .cons k v t, key => if k = key then some v else getField t key

/-- JSON whitespace (RFC 8259): space, tab, newline, carriage return. -/
def jsonWs (c : Char) : Bool := c = ' ' ∨ c = '\t' ∨ c = '\n' ∨ c = '\r'

/-- Skip JSON whitespace. -/
def skipWs (s : JStr) : JStr := s.dropWhile jsonWs

/-- Hex digit value. -/
def hexVal (c : Char) : Option Nat :=
  if '0' ≤ c ∧ c ≤ '9' then some (c.toNat - 48)
  else if 'a' ≤ c ∧ c ≤ 'f' then some (c.toNat - 87)
  else if 'A' ≤ c ∧ c ≤ 'F' then some (c.toNat - 55)
  else none

/-- Parse the body of a JSON string literal (after the opening quote),
returning the decoded characters and the rest of the input.  `\u` escapes
follow UTF-16: a high/low surrogate pair combines into one scalar; an
unpaired surrogate becomes U+FFFD (the `JStr` model holds scalar values
only). -/
def parseStrGo : Nat → JStr → Option (JStr × JStr)
  | 0, _ => none
  | _, [] => none
  | fuel + 1, c :: rest =>
    if c = '"' then some ([], rest)
    else if c = '\\' then
      match rest with
      | 'u' :: h1 :: h2 :: h3 :: h4 :: r =>
        match hexVal h1, hexVal h2, hexVal h3, hexVal h4 with
        | some a, some b, some d, some e =>
          let u := a * 4096 + b * 256 + d * 16 + e
          if 0xd800 ≤ u ∧ u ≤ 0xdbff then
            match r with
            | '\\' :: 'u' :: g1 :: g2 :: g3 :: g4 :: r2 =>
              match hexVal g1, hexVal g2, hexVal g3, hexVal g4 with
              | some a2, some b2, some d2, some e2 =>
                let u2 := a2 * 4096 + b2 * 256 + d2 * 16 + e2
                if 0xdc00 ≤ u2 ∧ u2 ≤ 0xdfff then
                  (parseStrGo fuel r2).map
                    (fun p => (mkChar (0x10000 + (u - 0xd800) * 1024 + (u2 - 0xdc00)) :: p.1, p.2))
                else (parseStrGo fuel r).map (fun p => (replChar :: p.1, p.2))
              | _, _, _, _ => (parseStrGo fuel r).map (fun p => (replChar :: p.1, p.2))
            | _ => (parseStrGo fuel r).map (fun p => (replChar :: p.1, p.2))
          else if 0xdc00 ≤ u ∧ u ≤ 0xdfff then
            (parseStrGo fuel r).map (fun p => (replChar :: p.1, p.2))
          else (parseStrGo fuel r).map (fun p => (mkChar u :: p.1, p.2))
        | _, _, _, _ => none
      | '"' :: r => (parseStrGo fuel r).map (fun p => ('"' :: p.1, p.2))
      | '\\' :: r => (parseStrGo fuel r).map (fun p => ('\\' :: p.1, p.2))
      | '/' :: r => (parseStrGo fuel r).map (fun p => ('/' :: p.1, p.2))
      | 'b' :: r => (parseStrGo fuel r).map (fun p => (Char.ofNat 8 :: p.1, p.2))
      | 'f' :: r => (parseStrGo fuel r).map (fun p => (Char.ofNat 12 :: p.1, p.2))
      | 'n' :: r => (parseStrGo fuel r).map (fun p => ('\n' :: p.1, p.2))
      | 'r' :: r => (parseStrGo fuel r).map (fun p => ('\r' :: p.1, p.2))
      | 't' :: r => (parseStrGo fuel r).map (fun p => ('\t' :: p.1, p.2))
      | _ => none
    else if c.toNat < 0x20 then none
    else (parseStrGo fuel rest).map (fun p => (c :: p.1, p.2))

/-- Scan the exponent part of a JSON number (after `e`/`E`). -/
def scanExp (acc : JStr) (s : JStr) : Option (JStr × JStr) :=
  let (sign, s1) :=
    match s with
    | '+' :: r => (['+'], r)
    | '-' :: r => (['-'], r)
    | _ => (([] : JStr), s)
  let ds := s1.takeWhile Char.isDigit
  if ds = [] then none
  else some (acc ++ 'e' :: sign ++ ds, s1.dropWhile Char.isDigit)

/-- Scan the fraction/exponent tail of a JSON number. -/
def scanFracExp (acc : JStr) (s : JStr) : Option (JStr × JStr) :=
  let fracRes :=
    match s with
    | '.' :: r =>
      let ds := r.takeWhile Char.isDigit
      (if ds = [] then none else some (acc ++ '.' :: ds, r.dropWhile Char.isDigit))
    | _ => some (acc, s)
  match fracRes with
  | none => none
  | some (acc2, s2) =>
    match s2 with
    | 'e' :: r => scanExp acc2 r
    | 'E' :: r => scanExp acc2 r
    | _ => some (acc2, s2)

/-- Scan a JSON number token (`-?(0|[1-9][0-9]*)(\.[0-9]+)?([eE][+-]?[0-9]+)?`). -/
def scanNum (s : JStr) : Option (JStr × JStr) :=
  let (neg, s1) :=
    match s with
    | '-' :: r => ((['-'] : JStr), r)
    | _ => (([] : JStr), s)
  match s1 with
  | '0' :: r => scanFracExp (neg ++ ['0']) r
  | c :: r =>
    if c.isDigit ∧ c ≠ '0' then
      scanFracExp (neg ++ c :: r.takeWhile Char.isDigit) (r.dropWhile Char.isDigit)
    else none
  | [] => none

mutual
/-- `JSON.parse` value parser (fuel-indexed; the fuel passed by `jsonParse`
always suffices for terminating inputs). -/
def parseValue : Nat → JStr → Option (Json × JStr)
  | 0, _ => none
  | fuel + 1, s =>
    match skipWs s with
    | 'n' :: 'u' :: 'l' :: 'l' :: r => some (.null, r)
    | 't' :: 'r' :: 'u' :: 'e' :: r => some (.bool true, r)
    | 'f' :: 'a' :: 'l' :: 's' :: 'e' :: r => some (.bool false, r)
    | '"' :: r => (parseStrGo (fuel + 1) r).map (fun p => (Json.str p.1, p.2))
    | '[' :: r =>
      (match skipWs r with
       | ']' :: r2 => some (Json.arr .nil, r2)
       | _ => (parseElems fuel r).map (fun p => (Json.arr p.1, p.2)))
    | '{' :: r =>
      (match skipWs r with
       | '}' :: r2 => some (Json.obj .nil, r2)
       | _ => (parseFields fuel r).map (fun p => (Json.obj p.1, p.2)))
    | other =>
      (scanNum other).map (fun p => (Json.num p.1, p.2))

/-- Array elements after `[` (at least one element). -/
def parseElems : Nat → JStr → Option (JsonList × JStr)
  | 0, _ => none
  | fuel + 1, s =>
    match parseValue fuel s with
    | none => none
    | some (j, r) =>
      match skipWs r with
      | ',' :: r2 =>
        (parseElems fuel r2).map (fun p => (JsonList.cons j p.1, p.2))
      | ']' :: r2 => some (.cons j .nil, r2)
      | _ => none

/-- Object members after `\x7b` (at least one member). -/
def parseFields : Nat → JStr → Option (JsonFields × JStr)
  | 0, _ => none
  | fuel + 1, s =>
    match skipWs s with
    | '"' :: r =>
      match parseStrGo (fuel + 1) r with
      | none => none
      | some (key, r1) =>
        match skipWs r1 with
        | ':' :: r2 =>
          (match parseValue fuel r2 with
           | none => none
           | some (j, r3) =>
             match skipWs r3 with
             | ',' :: r4 => (parseFields fuel r4).map (fun p => (JsonFields.cons key j p.1, p.2))
             | '}' :: r4 => some (.cons key j .nil, r4)
             | _ => none)
        | _ => none
    | _ => none
end

/-- `JSON.parse`: parse one value and require only whitespace after it;
`none` models a thrown `SyntaxError`. -/
def jsonParse (s : JStr) : Option Json :=
  match parseValue (2 * s.length + 4) s with
  | some (j, rest) => if skipWs rest = [] then some j else none
  | none => none

/-- Escape one character inside a JSON string literal, as
`JSON.stringify` does. -/
def escChar (c : Char) : JStr :=
  if c = '"' then ['\\', '"']
  else if c = '\\' then ['\\', '\\']
  else if c = '\n' then ['\\', 'n']
  else if c = '\r' then ['\\', 'r']
  else if c = '\t' then ['\\', 't']
  else if c.toNat = 8 then ['\\', 'b']
  else if c.toNat = 12 then ['\\', 'f']
  else if c.toNat < 0x20 then
    ['\\', 'u', '0', '0', hexDigit (c.toNat / 16), hexDigit (c.toNat % 16)]
  else [c]

/-- A JSON string literal. -/
def escStr (s : JStr) : JStr := '"' :: s.flatMap escChar ++ ['"']

/-- A newline followed by `n` spaces. -/
def nlIndent (n : Nat) : JStr := '\n' :: List.replicate n ' '

mutual
/-- `JSON.stringify(v, null, 2)` at the given indentation level. -/
def stringifyV : Json → Nat → JStr
  | .null, _ => strChars ("null")
  | .bool true, _ => strChars ("true")
  | .bool false, _ => strChars ("false")
  | .num raw, _ => raw
  | .str s, _ => escStr s
  | .arr .nil, _ => strChars ("[]")
  | .arr xs, ind =>
    '[' :: nlIndent (ind + 2) ++ stringifyItems xs (ind + 2) ++ nlIndent ind ++ [']']
  | .obj .nil, _ => strChars ("\x7b\x7d")
  | .obj fs, ind =>
    '{' :: nlIndent (ind + 2) ++ stringifyFields fs (ind + 2) ++ nlIndent ind ++ ['}']

/-- Array items joined by `,` + newline + indentation. -/
def stringifyItems : JsonList → Nat → JStr
  | .nil, _ => []
  | .cons h .nil, ind => stringifyV h ind
  | .cons h t, ind => stringifyV h ind ++ ',' :: nlIndent ind ++ stringifyItems t ind

/-- Object members joined by `,` + newline + indentation. -/
def stringifyFields : JsonFields → Nat → JStr
  | .nil, _ => []
  | .cons k v .nil, ind => escStr k ++ ':' :: ' ' :: stringifyV v ind
  | .cons k v t, ind =>
    escStr k ++ ':' :: ' ' :: stringifyV v ind ++ ',' :: nlIndent ind ++ stringifyFields t ind
end

/-- `JSON.stringify(v, null, 2)`. -/
def stringifyTop (j : Json) : JStr := stringifyV j 0

/-! ## Entities (`common/protocol/chat-history-service.ts`) -/

/-- `ChatMessage`; `role` is kept as a string, as in the protocol. -/
structure ChatMessage where
  id : JStr
  role : JStr
  content : JStr
  createdAt : JStr
  metadata : Option Json
  deriving DecidableEq

/-- `ThreadSummary`. -/
structure ThreadSummary where
  id : JStr
  title : JStr
  createdAt : JStr
  updatedAt : JStr
  status : JStr
  lastMessagePreview : Option JStr
  deriving DecidableEq

/-- `Thread`. -/
structure Thread where
  projectRoot : JStr
  id : JStr
  title : JStr
  createdAt : JStr
  updatedAt : JStr
  status : JStr
  messages : List ChatMessage
  context : Option Json
  deriving DecidableEq

/-- `ThreadsIndex`. -/
structure ThreadsIndex where
  threads : List ThreadSummary
  deriving DecidableEq

/-- Optional trailing field: `JSON.stringify` omits `undefined` members. -/
def optField (k : JStr) : Option Json → List (JStr × Json)
  | none => []
  | some j => [(k, j)]

/-- `ChatMessage` as the JSON object the store serialises. -/
def messageToJson (m : ChatMessage) : Json :=
  Json.obj (jfieldsOf
    ([(strChars ("id"), Json.str m.id),
      (strChars ("role"), Json.str m.role),
      (strChars ("content"), Json.str m.content),
      (strChars ("createdAt"), Json.str m.createdAt)] ++
      optField (strChars ("metadata")) m.metadata))

/-- `ThreadSummary` as JSON, fields in construction order. -/
def summaryToJson (s : ThreadSummary) : Json :=
  Json.obj (jfieldsOf
    ([(strChars ("id"), Json.str s.id),
      (strChars ("title"), Json.str s.title),
      (strChars ("createdAt"), Json.str s.createdAt),
      (strChars ("updatedAt"), Json.str s.updatedAt),
      (strChars ("status"), Json.str s.status)] ++
      optField (strChars ("lastMessagePreview")) (s.lastMessagePreview.map Json.str)))

/-- `Thread` as JSON, fields in construction order. -/
def threadToJson (t : Thread) : Json :=
  Json.obj (jfieldsOf
    ([(strChars ("projectRoot"), Json.str t.projectRoot),
      (strChars ("id"), Json.str t.id),
      (strChars ("title"), Json.str t.title),
      (strChars ("createdAt"), Json.str t.createdAt),
      (strChars ("updatedAt"), Json.str t.updatedAt),
      (strChars ("status"), Json.str t.status),
      (strChars ("messages"), Json.arr (jlistOf (t.messages.map messageToJson)))] ++
      optField (strChars ("context")) t.context))

/-- `ThreadsIndex` as JSON. -/
def indexToJson (idx : ThreadsIndex) : Json :=
  Json.obj (jfieldsOf
    [(strChars ("threads"), Json.arr (jlistOf (idx.threads.map summaryToJson)))])

/-- Project a JSON string. -/
def asStr : Json → Option JStr
  | .str s => some s
  | _ => none

/-- Read a string field. -/
def getStrField (fs : JsonFields) (k : JStr) : Option JStr :=
  (getField fs k).bind asStr

/-- Decode a `ChatMessage` from JSON.  The source casts without checking
(`JSON.parse(...) as Thread`); a shape mismatch here models the `TypeError`
raised at the first dynamic use of a missing property. -/
def messageOfJson : Json → Option ChatMessage
  | .obj fs => do
    let id ← getStrField fs (strChars ("id"))
    let role ← getStrField fs (strChars ("role"))
    let content ← getStrField fs (strChars ("content"))
    let createdAt ← getStrField fs (strChars ("createdAt"))
    some ⟨id, role, content, createdAt, getField fs (strChars ("metadata"))⟩
  | _ => none

/-- Decode a `ThreadSummary` from JSON. -/
def summaryOfJson : Json → Option ThreadSummary
  | .obj fs => do
    let id ← getStrField fs (strChars ("id"))
    let title ← getStrField fs (strChars ("title"))
    let createdAt ← getStrField fs (strChars ("createdAt"))
    let updatedAt ← getStrField fs (strChars ("updatedAt"))
    let status ← getStrField fs (strChars ("status"))
    some ⟨id, title, createdAt, updatedAt, status,
      (getField fs (strChars ("lastMessagePreview"))).bind asStr⟩
  | _ => none

/-- Decode a `Thread` from JSON. -/
def threadOfJson : Json → Option Thread
  | .obj fs => do
    let projectRoot ← getStrField fs (strChars ("projectRoot"))
    let id ← getStrField fs (strChars ("id"))
    let title ← getStrField fs (strChars ("title"))
    let createdAt ← getStrField fs (strChars ("createdAt"))
    let updatedAt ← getStrField fs (strChars ("updatedAt"))
    let status ← getStrField fs (strChars ("status"))
    let msgsJson ← getField fs (strChars ("messages"))
    match msgsJson with
    | .arr l =>
      let msgs ← (jlistToList l).mapM messageOfJson
      some ⟨projectRoot, id, title, createdAt, updatedAt, status, msgs,
        getField fs (strChars ("context"))⟩
    | _ => none
  | _ => none

/-- Decode a `ThreadsIndex` from JSON. -/
def indexOfJson : Json → Option ThreadsIndex
  | .obj fs => do
    let threadsJson ← getField fs (strChars ("threads"))
    match threadsJson with
    | .arr l =>
      let ts ← (jlistToList l).mapM summaryOfJson
      some ⟨ts⟩
    | _ => none
  | _ => none

/-! ## `new Date(iso).getTime()` and the listing sort -/

/-- Decimal value of a digit string. -/
def digitsVal (s : JStr) : Nat := s.foldl (fun a c => a * 10 + (c.toNat - 48)) 0

/-- Days since 1970-01-01 of a proleptic-Gregorian civil date. -/
def daysFromCivil (y m d : Int) : Int :=
  let yAdj := if m ≤ 2 then y - 1 else y
  let era := (if 0 ≤ yAdj then yAdj else yAdj - 399) / 400
  let yoe := yAdj - era * 400
  let mp := (m + 9) % 12
  let doy := (153 * mp + 2) / 5 + d - 1
  let doe := yoe * 365 + yoe / 4 - yoe / 100 + doy
  era * 146097 + doe - 719468

/-- `new Date(s).getTime()` restricted to the `YYYY-MM-DDTHH:MM:SS.mmmZ`
strings the store writes (`new Date().toISOString()`); every other shape
maps to 0 (standing in for NaN, which the claims never exercise). -/
def dateMillis (s : JStr) : Int :=
  match s with
  | [y1, y2, y3, y4, '-', mo1, mo2, '-', d1, d2, 'T',
     h1, h2, ':', mi1, mi2, ':', s1, s2, '.', f1, f2, f3, 'Z'] =>
    if [y1, y2, y3, y4, mo1, mo2, d1, d2, h1, h2, mi1, mi2, s1, s2, f1, f2, f3].all
        Char.isDigit then
      daysFromCivil (Int.ofNat (digitsVal [y1, y2, y3, y4]))
          (Int.ofNat (digitsVal [mo1, mo2])) (Int.ofNat (digitsVal [d1, d2])) * 86400000 +
        Int.ofNat (digitsVal [h1, h2]) * 3600000 +
        Int.ofNat (digitsVal [mi1, mi2]) * 60000 +
        Int.ofNat (digitsVal [s1, s2]) * 1000 +
        Int.ofNat (digitsVal [f1, f2, f3])
    else 0
  | _ => 0

/-- Stable insertion with a JS-style comparator (insert after every element
that should not come strictly later). -/
def insertByCmp (cmp : ThreadSummary → ThreadSummary → Int) (x : ThreadSummary) :
    List ThreadSummary → List ThreadSummary
  | [] => [x]
  | y :: ys => if cmp y x ≤ 0 then y :: insertByCmp cmp x ys else x :: y :: ys

/-- `Array.prototype.sort` with a comparator (stable, as in modern engines). -/
def sortByCmp (cmp : ThreadSummary → ThreadSummary → Int) (l : List ThreadSummary) :
    List ThreadSummary :=
  l.foldl (fun acc x => insertByCmp cmp x acc) []

/-- The listing comparator: `new Date(b.updatedAt) - new Date(a.updatedAt)`
(descending by `updatedAt`). -/
def summaryCmp (a b : ThreadSummary) : Int := dateMillis b.updatedAt - dateMillis a.updatedAt

/-! ## File-system model -/

/-- One file slot: missing (ENOENT), readable content, or a non-ENOENT read
error such as EACCES. -/
inductive Slot where
  | absent
  | file (content : JStr)
  | ioError
  deriving DecidableEq

/-- The files of one project chat directory: the `threads.json` index and
the `thread-<id>.json` files. -/
structure ChatState where
  index : Slot
  threads : List (JStr × Slot)
  deriving DecidableEq

/-- Slot of a thread file. -/
def threadSlot (st : ChatState) (id : JStr) : Slot :=
  match st.threads.find? (fun p => p.1 = id) with
  | some p => p.2
  | none => .absent

/-- Abstract file paths inside the chat directory. -/
inductive CPath where
  | indexPath
  | threadPath (id : JStr)
  | chatDir
  deriving DecidableEq

/-- A performed file-system operation, in program order. -/
inductive FsOp where
  | write (p : CPath) (content : JStr)
  | unlink (p : CPath)
  | mkdirChat
  deriving DecidableEq

/-- Operation kind, for statements that ignore written content. -/
inductive OpKind where
  | wr
  | ul
  | mk
  deriving DecidableEq

/-- Kind projection. -/
def FsOp.kind : FsOp → OpKind
  | .write _ _ => .wr
  | .unlink _ => .ul
  | .mkdirChat => .mk

/-- Target projection. -/
def FsOp.target : FsOp → CPath
  | .write p _ => p
  | .unlink p => p
  | .mkdirChat => .chatDir

/-- Kind and target, dropping content. -/
def FsOp.sig (o : FsOp) : OpKind × CPath := (o.kind, o.target)

deriving instance DecidableEq for Except

/-- The typed error codes of `ChatHistoryError`. -/
inductive CErr where
  | notFound
  | invalidRoot
  | writeFailed
  | readFailed
  | typeErr
  deriving DecidableEq

namespace EncodedStore

/-!
The `ChatHistoryServiceImpl` variant that uses `chat-encoding.ts` (the one
bundled with the electron app).  Each operation takes the resolved project
root, the current `ChatState`, the nondeterministic inputs the source draws
(`randomUUID()`, `new Date().toISOString()`) and a `migFail` flag that makes
the migration write-back inside a read fail (its own `try`/`catch` swallows
the failure); it returns the operation result together with the ordered
trace of file operations.  No operation reads a file it wrote earlier in the
same call, so all reads see the input state.
-/

/-- The single write `writeThreadsIndex` performs. -/
def indexWriteOp (root : JStr) (idx : ThreadsIndex) : FsOp :=
  .write .indexPath (ChatEncoding.encodeChatData (stringifyTop (indexToJson idx)) root)

/-- The single write `writeThreadFile` performs. -/
def threadWriteOp (root : JStr) (t : Thread) : FsOp :=
  .write (.threadPath t.id) (ChatEncoding.encodeChatData (stringifyTop (threadToJson t)) root)

/-- `readThreadsIndex`: decode (total), JSON-parse, delete the file and
return the empty index on a parse failure; plain (generation-1) content is
re-encoded and written back, the write-back failure being swallowed.  A
non-ENOENT read error surfaces as `ReadFailed` (its message matches neither
`Failed to decode` nor `Failed to read`, so the deletion fallback in the
outer catch does not trigger). -/
def readThreadsIndex (root : JStr) (st : ChatState) (migFail : Bool) :
    Except CErr ThreadsIndex × List FsOp :=
  match st.index with
  | .absent => (.ok ⟨[]⟩, [])
  | .ioError => (.error .readFailed, [])
  | .file content =>
    if ChatEncoding.isEncoded content then
      match jsonParse (ChatEncoding.decodeChatData content root) with
      | some j =>
        (match indexOfJson j with
         | some idx => (.ok idx, [])
         | none => (.error .typeErr, []))
      | none => (.ok ⟨[]⟩, [.unlink .indexPath])
    else
      let migOps : List FsOp :=
        if migFail then [] else [.write .indexPath (ChatEncoding.encodeChatData content root)]
      match jsonParse content with
      | some j =>
        (match indexOfJson j with
         | some idx => (.ok idx, migOps)
         | none => (.error .typeErr, migOps))
      | none => (.ok ⟨[]⟩, migOps ++ [.unlink .indexPath])

/-- `readThreadFile`: as for the index, but a missing file is `NotFound` and
a parse failure deletes the file and surfaces `ReadFailed`. -/
def readThreadFile (root : JStr) (st : ChatState) (threadId : JStr) (migFail : Bool) :
    Except CErr Thread × List FsOp :=
  match threadSlot st threadId with
  | .absent => (.error .notFound, [])
  | .ioError => (.error .readFailed, [])
  | .file content =>
    if ChatEncoding.isEncoded content then
      match jsonParse (ChatEncoding.decodeChatData content root) with
      | some j =>
        (match threadOfJson j with
         | some t => (.ok t, [])
         | none => (.error .typeErr, []))
      | none => (.error .readFailed, [.unlink (.threadPath threadId)])
    else
      let migOps : List FsOp :=
        if migFail then []
        else [.write (.threadPath threadId) (ChatEncoding.encodeChatData content root)]
      match jsonParse content with
      | some j =>
        (match threadOfJson j with
         | some t => (.ok t, migOps)
         | none => (.error .typeErr, migOps))
      | none => (.error .readFailed, migOps ++ [.unlink (.threadPath threadId)])

/-- `listThreads`: load the index and sort by `updatedAt` descending; the
outer ENOENT fallback is unreachable because `readThreadsIndex` already
maps a missing file to the empty index. -/
def listThreads (root : JStr) (st : ChatState) (migFail : Bool) :
    Except CErr (List ThreadSummary) × List FsOp :=
  match readThreadsIndex root st migFail with
  | (.ok idx, ops) => (.ok (sortByCmp summaryCmp idx.threads), ops)
  | (.error e, ops) => (.error e, ops)

/-- `generateTitle`: first sentence of the trimmed content (split on
`.`/`!`/`?` followed by whitespace, the separator being consumed), else the
first 57 characters plus an ellipsis. -/
def sentenceSplitFirst : JStr → JStr
  | [] => []
  | [c] => [c]
  | c1 :: c2 :: rest =>
    if (c1 = '.' ∨ c1 = '!' ∨ c1 = '?') ∧ jsSpace c2 then []
    else c1 :: sentenceSplitFirst (c2 :: rest)

/-- `generateTitle` from the first user message. -/
def generateTitle (firstMessage : ChatMessage) : JStr :=
  let text := jsTrim firstMessage.content
  let firstSentence := sentenceSplitFirst text
  if firstSentence.length ≤ 60 then firstSentence
  else jsTake 57 text ++ strChars ("...")

/-- The title `createThread` picks. -/
def titleFor (initialMessage : Option ChatMessage) : JStr :=
  match initialMessage with
  | some m => if m.role = strChars ("user") then generateTitle m else strChars ("New Chat")
  | none => strChars ("New Chat")

/-- `createThread`: mkdir, write the thread file, then read and rewrite the
index with the appended summary. -/
def createThread (root : JStr) (st : ChatState) (newId now : JStr)
    (initialMessage : Option ChatMessage) (migFail : Bool) :
    Except CErr Thread × List FsOp :=
  let title := titleFor initialMessage
  let thread : Thread :=
    { projectRoot := root, id := newId, title := title, createdAt := now,
      updatedAt := now, status := strChars ("active"),
      messages := match initialMessage with | some m => [m] | none => [],
      context := none }
  let preOps : List FsOp := [.mkdirChat, threadWriteOp root thread]
  match readThreadsIndex root st migFail with
  | (.error e, ops) => (.error e, preOps ++ ops)
  | (.ok idx, ops) =>
    let summary : ThreadSummary :=
      { id := newId, title := title, createdAt := now, updatedAt := now,
        status := strChars ("active"),
        lastMessagePreview := initialMessage.map (fun m => jsTake 100 m.content) }
    (.ok thread, preOps ++ ops ++ [indexWriteOp root ⟨idx.threads ++ [summary]⟩])

/-- `getThread`. -/
def getThread (root : JStr) (st : ChatState) (threadId : JStr) (migFail : Bool) :
    Except CErr Thread × List FsOp :=
  readThreadFile root st threadId migFail

/-- Replace the first summary with the given id (`index.threads.find`
followed by in-place mutation; no match leaves the index unchanged). -/
def updateFirstSummary (threadId : JStr) (f : ThreadSummary → ThreadSummary) :
    List ThreadSummary → List ThreadSummary
  | [] => []
  | s :: r => if s.id = threadId then f s :: r else s :: updateFirstSummary threadId f r

/-- `appendMessage`: read thread and index, push the message, bump
`updatedAt`, refresh the summary preview, then write thread file and index
in that order. -/
def appendMessage (root : JStr) (st : ChatState) (threadId : JStr) (message : ChatMessage)
    (now : JStr) (migFail : Bool) : Except CErr Thread × List FsOp :=
  match readThreadFile root st threadId migFail with
  | (.error e, ops) => (.error e, ops)
  | (.ok t, ops1) =>
    let updated := { t with messages := t.messages ++ [message], updatedAt := now }
    match readThreadsIndex root st migFail with
    | (.error e, ops2) => (.error e, ops1 ++ ops2)
    | (.ok idx, ops2) =>
      let idx2 : ThreadsIndex :=
        ⟨updateFirstSummary threadId
          (fun s =>
            { s with updatedAt := now,
                     lastMessagePreview := some (jsTake 100 message.content) })
          idx.threads⟩
      (.ok updated, ops1 ++ ops2 ++ [threadWriteOp root updated, indexWriteOp root idx2])

/-- `renameThread`. -/
def renameThread (root : JStr) (st : ChatState) (threadId title now : JStr)
    (migFail : Bool) : Except CErr Unit × List FsOp :=
  match readThreadFile root st threadId migFail with
  | (.error e, ops) => (.error e, ops)
  | (.ok t, ops1) =>
    let updated := { t with title := title, updatedAt := now }
    match readThreadsIndex root st migFail with
    | (.error e, ops2) => (.error e, ops1 ++ ops2)
    | (.ok idx, ops2) =>
      let idx2 : ThreadsIndex :=
        ⟨updateFirstSummary threadId (fun s => { s with title := title, updatedAt := now })
          idx.threads⟩
      (.ok (), ops1 ++ ops2 ++ [threadWriteOp root updated, indexWriteOp root idx2])

/-- `archiveThread`. -/
def archiveThread (root : JStr) (st : ChatState) (threadId now : JStr)
    (migFail : Bool) : Except CErr Unit × List FsOp :=
  match readThreadFile root st threadId migFail with
  | (.error e, ops) => (.error e, ops)
  | (.ok t, ops1) =>
    let updated := { t with status := strChars ("archived"), updatedAt := now }
    match readThreadsIndex root st migFail with
    | (.error e, ops2) => (.error e, ops1 ++ ops2)
    | (.ok idx, ops2) =>
      let idx2 : ThreadsIndex :=
        ⟨updateFirstSummary threadId
          (fun s => { s with status := strChars ("archived"), updatedAt := now })
          idx.threads⟩
      (.ok (), ops1 ++ ops2 ++ [threadWriteOp root updated, indexWriteOp root idx2])

/-- `deleteThread`: rewrite the index without the summary first, then unlink
the thread file (a failed unlink is logged and swallowed, so the unlink is
recorded unconditionally). -/
def deleteThread (root : JStr) (st : ChatState) (threadId : JStr) (migFail : Bool) :
    Except CErr Unit × List FsOp :=
  match readThreadsIndex root st migFail with
  | (.error e, ops) => (.error e, ops)
  | (.ok idx, ops) =>
    let idx2 : ThreadsIndex := ⟨idx.threads.filter (fun s => ¬ (s.id = threadId))⟩
    (.ok (), ops ++ [indexWriteOp root idx2, .unlink (.threadPath threadId)])

/-- `clearMessages`: empty the messages, bump `updatedAt`, clear the
summary preview, then write thread file and index in that order. -/
def clearMessages (root : JStr) (st : ChatState) (threadId now : JStr)
    (migFail : Bool) : Except CErr Thread × List FsOp :=
  match readThreadFile root st threadId migFail with
  | (.error e, ops) => (.error e, ops)
  | (.ok t, ops1) =>
    let updated := { t with messages := [], updatedAt := now }
    match readThreadsIndex root st migFail with
    | (.error e, ops2) => (.error e, ops1 ++ ops2)
    | (.ok idx, ops2) =>
      let idx2 : ThreadsIndex :=
        ⟨updateFirstSummary threadId
          (fun s => { s with updatedAt := now, lastMessagePreview := none }) idx.threads⟩
      (.ok updated, ops1 ++ ops2 ++ [threadWriteOp root updated, indexWriteOp root idx2])

end EncodedStore

namespace EncryptedStore

/-!
The `ChatHistoryServiceImpl` variant in
`arduino-ide-extension/src/node/chat/chat-history-service-impl.ts`, which
uses `chat-encryption.ts`.  The random IV drawn by the migration re-encrypt
is the `iv` parameter.
-/

/-- `readThreadsIndex`: decrypt when classified encrypted (failure →
`ReadFailed`), otherwise migrate plain content by re-encrypting it
(write-back failure swallowed); a JSON parse failure reaches the outer
catch and surfaces `ReadFailed` — this variant never deletes the file. -/
def readThreadsIndex (projectRoot : JStr) (st : ChatState) (iv : List Nat)
    (migFail : Bool) : Except CErr ThreadsIndex × List FsOp :=
  match st.index with
  | .absent => (.ok ⟨[]⟩, [])
  | .ioError => (.error .readFailed, [])
  | .file content =>
    if ChatEncryption.isEncrypted content then
      match ChatEncryption.decryptChatData content projectRoot with
      | none => (.error .readFailed, [])
      | some decrypted =>
        match jsonParse decrypted with
        | some j =>
          (match indexOfJson j with
           | some idx => (.ok idx, [])
           | none => (.error .typeErr, []))
        | none => (.error .readFailed, [])
    else
      let migOps : List FsOp :=
        if migFail then []
        else [.write .indexPath (ChatEncryption.encryptChatData content projectRoot iv)]
      match jsonParse content with
      | some j =>
        (match indexOfJson j with
         | some idx => (.ok idx, migOps)
         | none => (.error .typeErr, migOps))
      | none => (.error .readFailed, migOps)

/-- `readThreadFile` of the encrypted variant. -/
def readThreadFile (projectRoot : JStr) (st : ChatState) (threadId : JStr)
    (iv : List Nat) (migFail : Bool) : Except CErr Thread × List FsOp :=
  match threadSlot st threadId with
  | .absent => (.error .notFound, [])
  | .ioError => (.error .readFailed, [])
  | .file content =>
    if ChatEncryption.isEncrypted content then
      match ChatEncryption.decryptChatData content projectRoot with
      | none => (.error .readFailed, [])
      | some decrypted =>
        match jsonParse decrypted with
        | some j =>
          (match threadOfJson j with
           | some t => (.ok t, [])
           | none => (.error .typeErr, []))
        | none => (.error .readFailed, [])
    else
      let migOps : List FsOp :=
        if migFail then []
        else [.write (.threadPath threadId)
          (ChatEncryption.encryptChatData content projectRoot iv)]
      match jsonParse content with
      | some j =>
        (match threadOfJson j with
         | some t => (.ok t, migOps)
         | none => (.error .typeErr, migOps))
      | none => (.error .readFailed, migOps)

/-- `listThreads` of the encrypted variant: errors other than ENOENT (which
`readThreadsIndex` already absorbs) propagate to the caller. -/
def listThreads (projectRoot : JStr) (st : ChatState) (iv : List Nat) (migFail : Bool) :
    Except CErr (List ThreadSummary) × List FsOp :=
  match readThreadsIndex projectRoot st iv migFail with
  | (.ok idx, ops) => (.ok (sortByCmp summaryCmp idx.threads), ops)
  | (.error e, ops) => (.error e, ops)

end EncryptedStore

namespace EncodedStore

/-- The text the store hands to `JSON.parse`: the base64-decoded content
when the classifier says generation 2/3, the raw content otherwise. -/
def effectiveContent (root content : JStr) : JStr :=
  if ChatEncoding.isEncoded content then ChatEncoding.decodeChatData content root
  else content

end EncodedStore

namespace EncryptedStore

/-!
The mutating operations of the encryption-based variant.  They are
textually identical to the encoding variant except that every persisted
file goes through `encryptChatData`, whose `randomBytes(16)` draw is passed
as an explicit IV: `ivMigT`/`ivMigI` are the IVs a migration re-encrypt
inside the thread/index read would use, `ivT`/`ivI` the IVs of the
operation's own thread-file and index writes.  `generateTitle` and the
summary update helper are textually identical in both variants, so
`EncodedStore.titleFor` and `EncodedStore.updateFirstSummary` are reused.
-/

/-- The single write `writeThreadsIndex` of this variant performs. -/
def indexWriteOp (root : JStr) (iv : List Nat) (idx : ThreadsIndex) : FsOp :=
  .write .indexPath (ChatEncryption.encryptChatData (stringifyTop (indexToJson idx)) root iv)

/-- The single write `writeThreadFile` of this variant performs. -/
def threadWriteOp (root : JStr) (iv : List Nat) (t : Thread) : FsOp :=
  .write (.threadPath t.id)
    (ChatEncryption.encryptChatData (stringifyTop (threadToJson t)) root iv)

/-- `createThread`: mkdir, write the thread file, then read and rewrite the
index with the appended summary. -/
def createThread (root : JStr) (st : ChatState) (newId now : JStr)
    (initialMessage : Option ChatMessage) (ivMigI ivT ivI : List Nat) (migFail : Bool) :
    Except CErr Thread × List FsOp :=
  let title := EncodedStore.titleFor initialMessage
  let thread : Thread :=
    { projectRoot := root, id := newId, title := title, createdAt := now,
      updatedAt := now, status := strChars ("active"),
      messages := (match initialMessage with | some m => [m] | none => []),
      context := none }
  let preOps : List FsOp := [.mkdirChat, threadWriteOp root ivT thread]
  match readThreadsIndex root st ivMigI migFail with
  | (.error e, ops) => (.error e, preOps ++ ops)
  | (.ok idx, ops) =>
    let summary : ThreadSummary :=
      { id := newId, title := title, createdAt := now, updatedAt := now,
        status := strChars ("active"),
        lastMessagePreview := initialMessage.map (fun m => jsTake 100 m.content) }
    (.ok thread, preOps ++ ops ++ [indexWriteOp root ivI ⟨idx.threads ++ [summary]⟩])

/-- `appendMessage`: read thread and index, push the message, bump
`updatedAt`, refresh the summary preview, then write thread file and index
in that order. -/
def appendMessage (root : JStr) (st : ChatState) (threadId : JStr) (message : ChatMessage)
    (now : JStr) (ivMigT ivMigI ivT ivI : List Nat) (migFail : Bool) :
    Except CErr Thread × List FsOp :=
  match readThreadFile root st threadId ivMigT migFail with
  | (.error e, ops) => (.error e, ops)
  | (.ok t, ops1) =>
    let updated := { t with messages := t.messages ++ [message], updatedAt := now }
    match readThreadsIndex root st ivMigI migFail with
    | (.error e, ops2) => (.error e, ops1 ++ ops2)
    | (.ok idx, ops2) =>
      let idx2 : ThreadsIndex :=
        ⟨EncodedStore.updateFirstSummary threadId
          (fun s =>
            { s with updatedAt := now,
                     lastMessagePreview := some (jsTake 100 message.content) })
          idx.threads⟩
      (.ok updated,
        ops1 ++ ops2 ++ [threadWriteOp root ivT updated, indexWriteOp root ivI idx2])

/-- `renameThread`. -/
def renameThread (root : JStr) (st : ChatState) (threadId title now : JStr)
    (ivMigT ivMigI ivT ivI : List Nat) (migFail : Bool) : Except CErr Unit × List FsOp :=
  match readThreadFile root st threadId ivMigT migFail with
  | (.error e, ops) => (.error e, ops)
  | (.ok t, ops1) =>
    let updated := { t with title := title, updatedAt := now }
    match readThreadsIndex root st ivMigI migFail with
    | (.error e, ops2) => (.error e, ops1 ++ ops2)
    | (.ok idx, ops2) =>
      let idx2 : ThreadsIndex :=
        ⟨EncodedStore.updateFirstSummary threadId
          (fun s => { s with title := title, updatedAt := now }) idx.threads⟩
      (.ok (),
        ops1 ++ ops2 ++ [threadWriteOp root ivT updated, indexWriteOp root ivI idx2])

/-- `archiveThread`. -/
def archiveThread (root : JStr) (st : ChatState) (threadId now : JStr)
    (ivMigT ivMigI ivT ivI : List Nat) (migFail : Bool) : Except CErr Unit × List FsOp :=
  match readThreadFile root st threadId ivMigT migFail with
  | (.error e, ops) => (.error e, ops)
  | (.ok t, ops1) =>
    let updated := { t with status := strChars ("archived"), updatedAt := now }
    match readThreadsIndex root st ivMigI migFail with
    | (.error e, ops2) => (.error e, ops1 ++ ops2)
    | (.ok idx, ops2) =>
      let idx2 : ThreadsIndex :=
        ⟨EncodedStore.updateFirstSummary threadId
          (fun s => { s with status := strChars ("archived"), updatedAt := now })
          idx.threads⟩
      (.ok (),
        ops1 ++ ops2 ++ [threadWriteOp root ivT updated, indexWriteOp root ivI idx2])

/-- `deleteThread`: rewrite the index without the summary first, then unlink
the thread file (a failed unlink is logged and swallowed). -/
def deleteThread (root : JStr) (st : ChatState) (threadId : JStr)
    (ivMigI ivI : List Nat) (migFail : Bool) : Except CErr Unit × List FsOp :=
  match readThreadsIndex root st ivMigI migFail with
  | (.error e, ops) => (.error e, ops)
  | (.ok idx, ops) =>
    let idx2 : ThreadsIndex := ⟨idx.threads.filter (fun s => ¬ (s.id = threadId))⟩
    (.ok (), ops ++ [indexWriteOp root ivI idx2, .unlink (.threadPath threadId)])

end EncryptedStore

/-! ## Concrete fixtures used by witness theorems -/

/-- A concrete project root. -/
def fxRoot : JStr := strChars ("/proj")

/-- A concrete creation timestamp. -/
def fxCreated : JStr := strChars ("2024-01-01T00:00:00.000Z")

/-- A concrete mutation timestamp. -/
def fxNow : JStr := strChars ("2024-01-02T00:00:00.000Z")

/-- A concrete user message. -/
def fxMsg : ChatMessage :=
  ⟨strChars ("m1"), strChars ("user"), strChars ("Hello world"), fxCreated, none⟩

/-- A concrete user message whose content is 70 characters long with no
sentence terminator. -/
def fxLongMsg : ChatMessage :=
  ⟨strChars ("m2"), strChars ("user"),
   strChars ("aaaaaaaaaaaaaaaaaaaaaaaaaaaaaaaaaaaaaaaaaaaaaaaaaaaaaaaaaaaaaaaaaaaaaa"),
   fxCreated, none⟩

/-- A concrete thread holding `fxMsg`. -/
def fxThread : Thread :=
  ⟨fxRoot, strChars ("t1"), strChars ("Hello world"), fxCreated, fxCreated,
   strChars ("active"), [fxMsg], none⟩

/-- The summary of `fxThread`. -/
def fxSummary : ThreadSummary :=
  ⟨strChars ("t1"), strChars ("Hello world"), fxCreated, fxCreated,
   strChars ("active"), some (strChars ("Hello world"))⟩

/-- A state holding `fxThread` and its index entry, both stored in the
newest (base64) generation. -/
def fxState : ChatState :=
  ⟨.file (ChatEncoding.encodeChatData (stringifyTop (indexToJson ⟨[fxSummary]⟩)) fxRoot),
   [(strChars ("t1"),
     .file (ChatEncoding.encodeChatData (stringifyTop (threadToJson fxThread)) fxRoot))]⟩
/-! ## Splitting lemmas -/

theorem splitOnChar_ne_nil (sep : Char) (s : JStr) : splitOnChar sep s ≠ [] := by
  induction s with
  | nil => simp [splitOnChar]
  | cons c rest ih =>
    by_cases hc : c = sep
    · simp [splitOnChar, hc]
    · simp only [splitOnChar, if_neg hc]
      cases hsp : splitOnChar sep rest with
      | nil => exact absurd hsp ih
      | cons h t => simp

theorem splitOnChar_eq_single (sep : Char) (s : JStr) (h : sep ∉ s) :
    splitOnChar sep s = [s] := by
  induction s with
  | nil => rfl
  | cons c rest ih =>
    have hc : ¬ c = sep := fun hc => h (hc ▸ List.mem_cons_self c rest)
    have hrest : sep ∉ rest := fun hm => h (List.mem_cons_of_mem c hm)
    simp only [splitOnChar, if_neg hc, ih hrest]

theorem splitOnChar_sep_append (sep : Char) (xs ys : JStr) (h : sep ∉ xs) :
    splitOnChar sep (xs ++ sep :: ys) = xs :: splitOnChar sep ys := by
  induction xs with
  | nil => simp [splitOnChar]
  | cons c rest ih =>
    have hc : ¬ c = sep := fun hc => h (hc ▸ List.mem_cons_self c rest)
    have hrest : sep ∉ rest := fun hm => h (List.mem_cons_of_mem c hm)
    simp only [List.cons_append, splitOnChar, if_neg hc, List.append_eq, ih hrest]

theorem splitOnChar_length_eq_count (sep : Char) (s : JStr) :
    (splitOnChar sep s).length = s.count sep + 1 := by
  induction s with
  | nil => simp [splitOnChar]
  | cons c rest ih =>
    by_cases hc : c = sep
    · subst hc
      simp [splitOnChar, List.count_cons, ih]
    · simp only [splitOnChar, if_neg hc]
      cases hsp : splitOnChar sep rest with
      | nil => exact absurd hsp (splitOnChar_ne_nil sep rest)
      | cons hd tl =>
        have hlen := ih
        rw [hsp] at hlen
        simp only [List.length_cons] at hlen ⊢
        rw [List.count_cons]
        simp [hc, ← hlen]

/-! ## Base64 lemmas -/

theorem b64val_getD_eq (m : Nat) (hm : m < 64) : b64val (b64chars.getD m 'A') = some m := by
  revert hm
  revert m
  decide

theorem b64val_b64c (n : Nat) : b64val (b64c n) = some (n % 64) :=
  b64val_getD_eq (n % 64) (Nat.mod_lt _ (by omega))

theorem b64c_ne_colon (n : Nat) : b64c n ≠ ':' := by
  have h : ∀ m, m < 64 → b64chars.getD m 'A' ≠ ':' := by decide
  exact h (n % 64) (Nat.mod_lt _ (by omega))

theorem b64val_eq_none : b64val '=' = none := by decide

theorem base64Encode_no_colon (bs : List Nat) : ':' ∉ base64Encode bs := by
  induction bs using base64Encode.induct with
  | case1 a b c rest ih =>
    unfold base64Encode
    intro hm
    simp only [List.mem_cons] at hm
    rcases hm with h | h | h | h | h
    · exact b64c_ne_colon _ h.symm
    · exact b64c_ne_colon _ h.symm
    · exact b64c_ne_colon _ h.symm
    · exact b64c_ne_colon _ h.symm
    · exact ih h
  | case2 a b =>
    intro hm
    simp only [base64Encode, List.mem_cons, List.not_mem_nil, or_false] at hm
    rcases hm with h | h | h | h
    · exact b64c_ne_colon _ h.symm
    · exact b64c_ne_colon _ h.symm
    · exact b64c_ne_colon _ h.symm
    · exact absurd h (by decide)
  | case3 a =>
    intro hm
    simp only [base64Encode, List.mem_cons, List.not_mem_nil, or_false] at hm
    rcases hm with h | h | h
    · exact b64c_ne_colon _ h.symm
    · exact b64c_ne_colon _ h.symm
    · exact absurd h (by decide)
  | case4 => simp [base64Encode]

theorem base64_roundtrip (bs : List Nat) (h : ∀ b ∈ bs, b < 256) :
    base64DecodeLenient (base64Encode bs) = bs := by
  induction bs using base64Encode.induct with
  | case1 a b c rest ih =>
    have ha : a < 256 := h a (by simp)
    have hb : b < 256 := h b (by simp)
    have hc : c < 256 := h c (by simp)
    have hrest : ∀ x ∈ rest, x < 256 := fun x hx => h x (by simp [hx])
    unfold base64Encode
    unfold base64DecodeLenient at ih ⊢
    simp only [List.filterMap_cons, b64val_b64c]
    have e1 : a / 4 % 64 = a / 4 := Nat.mod_eq_of_lt (by omega)
    have e2 : (a % 4 * 16 + b / 16) % 64 = a % 4 * 16 + b / 16 :=
      Nat.mod_eq_of_lt (by omega)
    have e3 : (b % 16 * 4 + c / 64) % 64 = b % 16 * 4 + c / 64 :=
      Nat.mod_eq_of_lt (by omega)
    have e4 : c % 64 % 64 = c % 64 := Nat.mod_eq_of_lt (by omega)
    rw [e1, e2, e3, e4]
    unfold decodeQuads
    rw [ih hrest]
    have r1 : a / 4 * 4 + (a % 4 * 16 + b / 16) / 16 = a := by omega
    have r2 : (a % 4 * 16 + b / 16) % 16 * 16 + (b % 16 * 4 + c / 64) / 4 = b := by omega
    have r3 : (b % 16 * 4 + c / 64) % 4 * 64 + c % 64 = c := by omega
    rw [r1, r2, r3]
  | case2 a b =>
    have ha : a < 256 := h a (by simp)
    have hb : b < 256 := h b (by simp)
    unfold base64Encode base64DecodeLenient
    simp only [List.filterMap_cons, List.filterMap_nil, b64val_b64c, b64val_eq_none]
    have e1 : a / 4 % 64 = a / 4 := Nat.mod_eq_of_lt (by omega)
    have e2 : (a % 4 * 16 + b / 16) % 64 = a % 4 * 16 + b / 16 :=
      Nat.mod_eq_of_lt (by omega)
    have e3 : (b % 16 * 4) % 64 = b % 16 * 4 := Nat.mod_eq_of_lt (by omega)
    rw [e1, e2, e3]
    simp only [decodeQuads]
    have r1 : a / 4 * 4 + (a % 4 * 16 + b / 16) / 16 = a := by omega
    have r2 : (a % 4 * 16 + b / 16) % 16 * 16 + b % 16 * 4 / 4 = b := by omega
    rw [r1, r2]
  | case3 a =>
    have ha : a < 256 := h a (by simp)
    unfold base64Encode base64DecodeLenient
    simp only [List.filterMap_cons, List.filterMap_nil, b64val_b64c, b64val_eq_none]
    have e1 : a / 4 % 64 = a / 4 := Nat.mod_eq_of_lt (by omega)
    have e2 : (a % 4 * 16) % 64 = a % 4 * 16 := Nat.mod_eq_of_lt (by omega)
    rw [e1, e2]
    simp only [decodeQuads]
    have r1 : a / 4 * 4 + a % 4 * 16 / 16 = a := by omega
    rw [r1]
  | case4 => rfl

/-! ## UTF-8 lemmas -/

theorem char_toNat_valid (c : Char) :
    c.toNat < 0xd800 ∨ (0xdfff < c.toNat ∧ c.toNat < 0x110000) := c.valid

theorem mkChar_toNat (c : Char) : mkChar c.toNat = c := by
  have hval : (c.toNat).isValidChar := c.valid
  rw [mkChar, dif_pos hval, Char.ofNat_toNat]

theorem utf8EncodeChar_lt (c : Char) : ∀ b ∈ utf8EncodeChar c, b < 256 := by
  have hv := char_toNat_valid c
  intro b hb
  simp only [utf8EncodeChar] at hb
  by_cases h1 : c.toNat < 0x80
  · rw [if_pos h1] at hb
    simp only [List.mem_cons, List.not_mem_nil, or_false] at hb
    omega
  · rw [if_neg h1] at hb
    by_cases h2 : c.toNat < 0x800
    · rw [if_pos h2] at hb
      simp only [List.mem_cons, List.not_mem_nil, or_false] at hb
      rcases hb with rfl | rfl <;> omega
    · rw [if_neg h2] at hb
      by_cases h3 : c.toNat < 0x10000
      · rw [if_pos h3] at hb
        simp only [List.mem_cons, List.not_mem_nil, or_false] at hb
        rcases hb with rfl | rfl | rfl <;> omega
      · rw [if_neg h3] at hb
        simp only [List.mem_cons, List.not_mem_nil, or_false] at hb
        rcases hb with rfl | rfl | rfl | rfl <;> omega

theorem utf8Encode_lt (s : JStr) : ∀ b ∈ utf8Encode s, b < 256 := by
  intro b hb
  simp only [utf8Encode, List.mem_flatMap] at hb
  obtain ⟨c, _, hbc⟩ := hb
  exact utf8EncodeChar_lt c b hbc

theorem utf8DecodeGo_fuel : ∀ (n : Nat) (bs : List Nat), bs.length ≤ n →
    ∀ fuel1 fuel2, bs.length ≤ fuel1 → bs.length ≤ fuel2 →
      utf8DecodeGo fuel1 bs = utf8DecodeGo fuel2 bs := by
  intro n
  induction n with
  | zero =>
    intro bs h fuel1 fuel2 _ _
    have : bs = [] := List.length_eq_zero.mp (by omega)
    subst this
    cases fuel1 <;> cases fuel2 <;> rfl
  | succ n ih =>
    intro bs h fuel1 fuel2 h1 h2
    cases bs with
    | nil => cases fuel1 <;> cases fuel2 <;> rfl
    | cons b1 rest =>
      cases fuel1 with
      | zero => simp at h1
      | succ f1 =>
        cases fuel2 with
        | zero => simp at h2
        | succ f2 =>
          simp only [utf8DecodeGo]
          congr 1
          have hd : (rest.drop ((utf8Step b1 rest).2)).length ≤ rest.length := by
            rw [List.length_drop]
            omega
          simp only [List.length_cons] at h h1 h2
          exact ih _ (by omega) f1 f2 (by omega) (by omega)

theorem utf8DecodeGo_extra (bs : List Nat) (k : Nat) :
    utf8DecodeGo (bs.length + k) bs = utf8DecodeLenient bs :=
  utf8DecodeGo_fuel bs.length bs (le_refl _) _ _ (by omega) (le_refl _)

theorem utf8_decode_encode_char (c : Char) (bs : List Nat) :
    utf8DecodeLenient (utf8EncodeChar c ++ bs) = c :: utf8DecodeLenient bs := by
  have hv := char_toNat_valid c
  by_cases h1 : c.toNat < 0x80
  · have henc : utf8EncodeChar c = [c.toNat] := by
      simp only [utf8EncodeChar, if_pos h1]
    have hstep : utf8Step c.toNat bs = (c, 0) := by
      simp only [utf8Step, eq_true h1, if_true, mkChar_toNat]
    rw [henc, List.cons_append, List.nil_append]
    show utf8DecodeGo (c.toNat :: bs).length (c.toNat :: bs) = c :: utf8DecodeLenient bs
    simp only [List.length_cons, utf8DecodeGo, hstep, List.drop_zero]
    rfl
  · by_cases h2 : c.toNat < 0x800
    · have henc : utf8EncodeChar c = [0xc0 + c.toNat / 64, 0x80 + c.toNat % 64] := by
        simp only [utf8EncodeChar, if_neg h1, if_pos h2]
      have d1 : ¬ (0xc0 + c.toNat / 64 < 0x80) := by omega
      have d2 : ¬ (0xc0 + c.toNat / 64 < 0xc0) := by omega
      have d3 : 0xc0 + c.toNat / 64 < 0xe0 := by omega
      have hcont : isCont (0x80 + c.toNat % 64) = true := by
        simp only [isCont, decide_eq_true_eq]
        omega
      have hge : (0x80 : Nat) ≤ (0xc0 + c.toNat / 64 - 0xc0) * 64 +
          (0x80 + c.toNat % 64 - 0x80) := by omega
      have harg : (0xc0 + c.toNat / 64 - 0xc0) * 64 + (0x80 + c.toNat % 64 - 0x80)
          = c.toNat := by omega
      have hstep : utf8Step (0xc0 + c.toNat / 64) ((0x80 + c.toNat % 64) :: bs) = (c, 1) := by
        simp only [utf8Step, eq_false d1, eq_false d2, eq_true d3, if_false, if_true,
          List.getD_cons_zero]
        rw [if_pos ⟨by simp, hcont, hge⟩, harg, mkChar_toNat]
      rw [henc, List.cons_append, List.cons_append, List.nil_append]
      show utf8DecodeGo (_ :: _ :: bs).length _ = c :: utf8DecodeLenient bs
      simp only [List.length_cons, utf8DecodeGo, hstep, List.drop_succ_cons, List.drop_zero]
      exact congrArg (c :: ·) (utf8DecodeGo_extra bs 1)
    · by_cases h3 : c.toNat < 0x10000
      · have henc : utf8EncodeChar c =
            [0xe0 + c.toNat / 4096, 0x80 + c.toNat / 64 % 64, 0x80 + c.toNat % 64] := by
          simp only [utf8EncodeChar, if_neg h1, if_neg h2, if_pos h3]
        have d1 : ¬ (0xe0 + c.toNat / 4096 < 0x80) := by omega
        have d2 : ¬ (0xe0 + c.toNat / 4096 < 0xc0) := by omega
        have d3 : ¬ (0xe0 + c.toNat / 4096 < 0xe0) := by omega
        have d4 : 0xe0 + c.toNat / 4096 < 0xf0 := by omega
        have hcont2 : isCont (0x80 + c.toNat / 64 % 64) = true := by
          simp only [isCont, decide_eq_true_eq]
          omega
        have hcont3 : isCont (0x80 + c.toNat % 64) = true := by
          simp only [isCont, decide_eq_true_eq]
          omega
        have harg : (0xe0 + c.toNat / 4096 - 0xe0) * 4096 +
            (0x80 + c.toNat / 64 % 64 - 0x80) * 64 + (0x80 + c.toNat % 64 - 0x80)
            = c.toNat := by omega
        have hge : (0x800 : Nat) ≤ (0xe0 + c.toNat / 4096 - 0xe0) * 4096 +
            (0x80 + c.toNat / 64 % 64 - 0x80) * 64 + (0x80 + c.toNat % 64 - 0x80) := by
          omega
        have hvalid : ((0xe0 + c.toNat / 4096 - 0xe0) * 4096 +
            (0x80 + c.toNat / 64 % 64 - 0x80) * 64 +
            (0x80 + c.toNat % 64 - 0x80)).isValidChar := by
          rw [harg]
          exact c.valid
        have hstep : utf8Step (0xe0 + c.toNat / 4096)
            ((0x80 + c.toNat / 64 % 64) :: (0x80 + c.toNat % 64) :: bs) = (c, 2) := by
          simp only [utf8Step, eq_false d1, eq_false d2, eq_false d3, eq_true d4,
            if_false, if_true, List.getD_cons_zero, List.getD_cons_succ]
          rw [if_pos ⟨by simp, hcont2, hcont3, hge, hvalid⟩, harg, mkChar_toNat]
        rw [henc, List.cons_append, List.cons_append, List.cons_append, List.nil_append]
        show utf8DecodeGo (_ :: _ :: _ :: bs).length _ = c :: utf8DecodeLenient bs
        simp only [List.length_cons, utf8DecodeGo, hstep, List.drop_succ_cons,
          List.drop_zero]
        exact congrArg (c :: ·) (utf8DecodeGo_extra bs 2)
      · have henc : utf8EncodeChar c =
            [0xf0 + c.toNat / 262144, 0x80 + c.toNat / 4096 % 64,
             0x80 + c.toNat / 64 % 64, 0x80 + c.toNat % 64] := by
          simp only [utf8EncodeChar, if_neg h1, if_neg h2, if_neg h3]
        have d1 : ¬ (0xf0 + c.toNat / 262144 < 0x80) := by omega
        have d2 : ¬ (0xf0 + c.toNat / 262144 < 0xc0) := by omega
        have d3 : ¬ (0xf0 + c.toNat / 262144 < 0xe0) := by omega
        have d4 : ¬ (0xf0 + c.toNat / 262144 < 0xf0) := by omega
        have d5 : 0xf0 + c.toNat / 262144 < 0xf8 := by omega
        have hcont2 : isCont (0x80 + c.toNat / 4096 % 64) = true := by
          simp only [isCont, decide_eq_true_eq]
          omega
        have hcont3 : isCont (0x80 + c.toNat / 64 % 64) = true := by
          simp only [isCont, decide_eq_true_eq]
          omega
        have hcont4 : isCont (0x80 + c.toNat % 64) = true := by
          simp only [isCont, decide_eq_true_eq]
          omega
        have harg : (0xf0 + c.toNat / 262144 - 0xf0) * 262144 +
            (0x80 + c.toNat / 4096 % 64 - 0x80) * 4096 +
            (0x80 + c.toNat / 64 % 64 - 0x80) * 64 + (0x80 + c.toNat % 64 - 0x80)
            = c.toNat := by omega
        have hge : (0x10000 : Nat) ≤ (0xf0 + c.toNat / 262144 - 0xf0) * 262144 +
            (0x80 + c.toNat / 4096 % 64 - 0x80) * 4096 +
            (0x80 + c.toNat / 64 % 64 - 0x80) * 64 + (0x80 + c.toNat % 64 - 0x80) := by
          omega
        have hlt : (0xf0 + c.toNat / 262144 - 0xf0) * 262144 +
            (0x80 + c.toNat / 4096 % 64 - 0x80) * 4096 +
            (0x80 + c.toNat / 64 % 64 - 0x80) * 64 + (0x80 + c.toNat % 64 - 0x80)
            < 0x110000 := by omega
        have hstep : utf8Step (0xf0 + c.toNat / 262144)
            ((0x80 + c.toNat / 4096 % 64) :: (0x80 + c.toNat / 64 % 64) ::
              (0x80 + c.toNat % 64) :: bs) = (c, 3) := by
          simp only [utf8Step, eq_false d1, eq_false d2, eq_false d3, eq_false d4,
            eq_true d5, if_false, if_true, List.getD_cons_zero, List.getD_cons_succ]
          rw [if_pos ⟨by simp, hcont2, hcont3, hcont4, hge, hlt⟩, harg, mkChar_toNat]
        rw [henc, List.cons_append, List.cons_append, List.cons_append, List.cons_append,
          List.nil_append]
        show utf8DecodeGo (_ :: _ :: _ :: _ :: bs).length _ = c :: utf8DecodeLenient bs
        simp only [List.length_cons, utf8DecodeGo, hstep, List.drop_succ_cons,
          List.drop_zero]
        exact congrArg (c :: ·) (utf8DecodeGo_extra bs 3)

theorem utf8_roundtrip (s : JStr) : utf8DecodeLenient (utf8Encode s) = s := by
  induction s with
  | nil => rfl
  | cons c rest ih =>
    simp only [utf8Encode, List.flatMap_cons]
    rw [utf8_decode_encode_char c]
    rw [show (rest.flatMap utf8EncodeChar) = utf8Encode rest from rfl, ih]

/-! ## GCM keystream lemmas -/

theorem gcmKeystream_length (key iv : List Nat) (n : Nat) :
    (gcmKeystream key iv n).length = n := by
  simp [gcmKeystream]

theorem gcmKeystream_lt (key iv : List Nat) (n : Nat) :
    ∀ b ∈ gcmKeystream key iv n, b < 256 := by
  intro b hb
  simp only [gcmKeystream, List.mem_map, List.mem_range] at hb
  obtain ⟨i, _, rfl⟩ := hb
  exact Nat.mod_lt _ (by omega)

theorem zipWith_xor_xor (pt : List Nat) :
    ∀ ks : List Nat, pt.length ≤ ks.length →
      List.zipWith (fun p k => p ^^^ k) (List.zipWith (fun p k => p ^^^ k) pt ks) ks = pt := by
  induction pt with
  | nil => intro ks _; simp
  | cons p pt ih =>
    intro ks h
    cases ks with
    | nil => simp at h
    | cons k ks =>
      simp only [List.zipWith_cons_cons, Nat.xor_cancel_right, List.cons.injEq, true_and]
      exact ih ks (by simpa using h)

theorem zipWith_xor_lt (as : List Nat) :
    ∀ bs : List Nat, (∀ a ∈ as, a < 256) → (∀ b ∈ bs, b < 256) →
      ∀ x ∈ List.zipWith (fun p k => p ^^^ k) as bs, x < 256 := by
  induction as with
  | nil => intro bs _ _ x hx; simp at hx
  | cons a as ih =>
    intro bs ha hb x hx
    cases bs with
    | nil => simp at hx
    | cons b bs =>
      simp only [List.zipWith_cons_cons, List.mem_cons] at hx
      rcases hx with rfl | hx
      · have h1 : a < 2 ^ 8 := by simpa using ha a (by simp)
        have h2 : b < 2 ^ 8 := by simpa using hb b (by simp)
        simpa using Nat.xor_lt_two_pow h1 h2
      · exact ih bs (fun y hy => ha y (by simp [hy])) (fun y hy => hb y (by simp [hy])) x hx

theorem ctrXor_length (key iv data : List Nat) :
    (ctrXor key iv data).length = data.length := by
  simp [ctrXor, gcmKeystream_length]

theorem ctrXor_ctrXor (key iv pt : List Nat) :
    ctrXor key iv (ctrXor key iv pt) = pt := by
  show List.zipWith (fun p k => p ^^^ k) (ctrXor key iv pt)
    (gcmKeystream key iv (ctrXor key iv pt).length) = pt
  rw [ctrXor_length]
  rw [show ctrXor key iv pt
    = List.zipWith (fun p k => p ^^^ k) pt (gcmKeystream key iv pt.length) from rfl]
  exact zipWith_xor_xor pt (gcmKeystream key iv pt.length)
    (le_of_eq (gcmKeystream_length key iv pt.length).symm)

theorem ctrXor_lt (key iv data : List Nat) (h : ∀ b ∈ data, b < 256) :
    ∀ x ∈ ctrXor key iv data, x < 256 :=
  zipWith_xor_lt data (gcmKeystream key iv data.length) h
    (gcmKeystream_lt key iv data.length)

theorem natToBytes_length (n x : Nat) : (natToBytes n x).length = n := by
  simp [natToBytes]

theorem natToBytes_lt (n x : Nat) : ∀ b ∈ natToBytes n x, b < 256 := by
  intro b hb
  simp only [natToBytes, List.mem_map, List.mem_range] at hb
  obtain ⟨i, _, rfl⟩ := hb
  exact Nat.mod_lt _ (by omega)

theorem gcmTag_length (key iv ct : List Nat) : (gcmTag key iv ct).length = 16 := by
  simp [gcmTag, natToBytes_length]

theorem gcmTag_lt (key iv ct : List Nat) : ∀ b ∈ gcmTag key iv ct, b < 256 := by
  intro b hb
  simp only [gcmTag] at hb
  exact natToBytes_lt _ _ b hb

theorem encryptChatData_roundtrip (s projectRoot : JStr) (iv : List Nat)
    (hlen : iv.length = 16) (hbytes : ∀ b ∈ iv, b < 256) :
    ChatEncryption.decryptChatData (ChatEncryption.encryptChatData s projectRoot iv)
      projectRoot = some s := by
  simp only [ChatEncryption.encryptChatData, ChatEncryption.decryptChatData]
  have hsplit : splitOnChar ':'
      (base64Encode iv ++ ':' ::
        (base64Encode (gcmTag (ChatEncryption.deriveKey projectRoot) iv
            (ctrXor (ChatEncryption.deriveKey projectRoot) iv (utf8Encode s))) ++ ':' ::
          base64Encode (ctrXor (ChatEncryption.deriveKey projectRoot) iv (utf8Encode s))))
      = [base64Encode iv,
         base64Encode (gcmTag (ChatEncryption.deriveKey projectRoot) iv
           (ctrXor (ChatEncryption.deriveKey projectRoot) iv (utf8Encode s))),
         base64Encode (ctrXor (ChatEncryption.deriveKey projectRoot) iv (utf8Encode s))] := by
    rw [splitOnChar_sep_append _ _ _ (base64Encode_no_colon iv),
      splitOnChar_sep_append _ _ _ (base64Encode_no_colon _),
      splitOnChar_eq_single _ _ (base64Encode_no_colon _)]
  rw [hsplit]
  simp only [List.length_cons, List.length_nil, List.getD_cons_zero, List.getD_cons_succ,
    if_pos rfl]
  rw [base64_roundtrip iv hbytes,
    base64_roundtrip _ (gcmTag_lt _ _ _),
    base64_roundtrip _ (ctrXor_lt _ _ _ (utf8Encode_lt s))]
  rw [if_neg (by omega : ¬ (iv.length = 0))]
  rw [List.take_length]
  rw [gcmTag_length]
  rw [if_neg (by decide : ¬ (ChatEncryption.tagLenOk 16 = false))]
  rw [if_pos rfl]
  rw [ctrXor_ctrXor, utf8_roundtrip]
  simp

/-- Claim C1: for every UTF-8 string `s` and every project-root string `r`,
`decryptChatData(encryptChatData(s, r), r)` returns `s`; the key is derived
deterministically from `r` alone (`deriveKey` is a pure function of `r` and
no key material appears in the output beyond the IV/tag/ciphertext).  The
random 16-byte IV drawn by `randomBytes(16)` is the explicit `iv`. -/
theorem C1_encrypt_decrypt_roundtrip (s projectRoot : JStr) (iv : List Nat)
    (hlen : iv.length = 16) (hbytes : ∀ b ∈ iv, b < 256) :
    ChatEncryption.decryptChatData (ChatEncryption.encryptChatData s projectRoot iv)
      projectRoot = some s :=
  encryptChatData_roundtrip s projectRoot iv hlen hbytes

/-- Witness for C1 at a concrete string, project root and IV. -/
theorem C1_encrypt_decrypt_roundtrip_witness :
    ChatEncryption.decryptChatData
      (ChatEncryption.encryptChatData (strChars ("hi")) (strChars ("/proj"))
        [0, 1, 2, 3, 4, 5, 6, 7, 8, 9, 10, 11, 12, 13, 14, 15]) (strChars ("/proj"))
      = some (strChars ("hi")) :=
  C1_encrypt_decrypt_roundtrip _ _ _ (by decide) (by decide)

theorem encryptChatData_isEncrypted (s projectRoot : JStr) (iv : List Nat) :
    ChatEncryption.isEncrypted (ChatEncryption.encryptChatData s projectRoot iv) = true := by
  simp only [ChatEncryption.encryptChatData, ChatEncryption.isEncrypted]
  rw [splitOnChar_sep_append _ _ _ (base64Encode_no_colon iv),
    splitOnChar_sep_append _ _ _ (base64Encode_no_colon _),
    splitOnChar_eq_single _ _ (base64Encode_no_colon _)]
  simp [ChatEncryption.segmentDecodes]

/-- Claim C10: everything `encryptChatData` emits is classified as
generation 3 by `isEncrypted`: base64 segments contain no `:`, so the
output always has exactly 3 colon-separated segments (and the per-segment
base64 check never fails). -/
theorem C10_encrypt_output_isEncrypted (s projectRoot : JStr) (iv : List Nat) :
    ChatEncryption.isEncrypted (ChatEncryption.encryptChatData s projectRoot iv) = true :=
  encryptChatData_isEncrypted s projectRoot iv

/-- Claim C9: `isEncrypted` returns true exactly when the string splits on
`:` into 3 segments; the per-segment `Buffer.from(part, 'base64')` check is
total and never rejects; hence any string containing exactly two colons is
classified as encrypted. -/
theorem C9_isEncrypted_iff_three_segments :
    (∀ s : JStr, ChatEncryption.isEncrypted s = ((splitOnChar ':' s).length == 3)) ∧
    (∀ part : JStr, ChatEncryption.segmentDecodes part = true) ∧
    (∀ s : JStr, s.count ':' = 2 → ChatEncryption.isEncrypted s = true) := by
  have hall : ∀ s : JStr,
      ChatEncryption.isEncrypted s = ((splitOnChar ':' s).length == 3) := by
    intro s
    simp [ChatEncryption.isEncrypted, ChatEncryption.segmentDecodes]
  refine ⟨hall, fun part => rfl, fun s h => ?_⟩
  rw [hall, splitOnChar_length_eq_count, h]
  rfl

/-- Witness for C9 on a concrete two-colon plaintext. -/
theorem C9_isEncrypted_iff_three_segments_witness :
    ChatEncryption.isEncrypted (strChars ("ab:cd:ef")) = true :=
  C9_isEncrypted_iff_three_segments.2.2 _ (by decide)

/-- Claim C4: the `isEncoded` classifier follows the three-step rule — 3
colon segments mean generation 3, otherwise content whose trimmed text
starts with a brace/bracket is generation 1 (not encoded), otherwise the
string counts as generation 2 exactly when its lenient base64 decoding has
trimmed text starting with a brace/bracket; with the two concrete examples
from the spec. -/
theorem C4_isEncoded_classification :
    (∀ s : JStr, ChatEncoding.isEncoded s =
      (if (splitOnChar ':' s).length = 3 then true
       else if startsWithBracket (jsTrim s) then false
       else startsWithBracket (jsTrim (utf8DecodeLenient (base64DecodeLenient s))))) ∧
    ChatEncoding.isEncoded (base64Encode (utf8Encode (strChars ("\x7b\"a\":1\x7d")))) = true ∧
    ChatEncoding.isEncoded (strChars ("\x7b\"a\":1\x7d")) = false := by
  refine ⟨fun s => ?_, by decide, by decide⟩
  by_cases h : (splitOnChar ':' s).length = 3
  · simp [ChatEncoding.isEncoded, h]
  · simp [ChatEncoding.isEncoded, h]

/-! ## Encoded-store read lemmas -/

theorem encodedIndex_parsefail (root content : JStr) (st : ChatState) (migFail : Bool)
    (h : st.index = .file content)
    (hparse : jsonParse (EncodedStore.effectiveContent root content) = none) :
    EncodedStore.readThreadsIndex root st migFail =
      (.ok ⟨[]⟩,
        (if ChatEncoding.isEncoded content then []
         else if migFail then []
         else [.write .indexPath (ChatEncoding.encodeChatData content root)]) ++
          [.unlink .indexPath]) := by
  by_cases henc : ChatEncoding.isEncoded content
  · rw [EncodedStore.effectiveContent, if_pos henc] at hparse
    simp [EncodedStore.readThreadsIndex, h, henc, hparse]
  · rw [EncodedStore.effectiveContent, if_neg henc] at hparse
    simp [EncodedStore.readThreadsIndex, h, henc, hparse]

theorem encodedThread_parsefail (root tid content : JStr) (st : ChatState) (migFail : Bool)
    (h : threadSlot st tid = .file content)
    (hparse : jsonParse (EncodedStore.effectiveContent root content) = none) :
    EncodedStore.readThreadFile root st tid migFail =
      (.error .readFailed,
        (if ChatEncoding.isEncoded content then []
         else if migFail then []
         else [.write (.threadPath tid) (ChatEncoding.encodeChatData content root)]) ++
          [.unlink (.threadPath tid)]) := by
  by_cases henc : ChatEncoding.isEncoded content
  · rw [EncodedStore.effectiveContent, if_pos henc] at hparse
    simp [EncodedStore.readThreadFile, h, henc, hparse]
  · rw [EncodedStore.effectiveContent, if_neg henc] at hparse
    simp [EncodedStore.readThreadFile, h, henc, hparse]

theorem encodedIndex_ok (root content : JStr) (st : ChatState) (migFail : Bool)
    (j : Json) (idx : ThreadsIndex) (h : st.index = .file content)
    (hparse : jsonParse (EncodedStore.effectiveContent root content) = some j)
    (hidx : indexOfJson j = some idx) :
    EncodedStore.readThreadsIndex root st migFail =
      (.ok idx,
        if ChatEncoding.isEncoded content then []
        else if migFail then []
        else [.write .indexPath (ChatEncoding.encodeChatData content root)]) := by
  by_cases henc : ChatEncoding.isEncoded content
  · rw [EncodedStore.effectiveContent, if_pos henc] at hparse
    simp [EncodedStore.readThreadsIndex, h, henc, hparse, hidx]
  · rw [EncodedStore.effectiveContent, if_neg henc] at hparse
    simp [EncodedStore.readThreadsIndex, h, henc, hparse, hidx]

theorem encodedThread_ok (root tid content : JStr) (st : ChatState) (migFail : Bool)
    (j : Json) (t : Thread) (h : threadSlot st tid = .file content)
    (hparse : jsonParse (EncodedStore.effectiveContent root content) = some j)
    (ht : threadOfJson j = some t) :
    EncodedStore.readThreadFile root st tid migFail =
      (.ok t,
        if ChatEncoding.isEncoded content then []
        else if migFail then []
        else [.write (.threadPath tid) (ChatEncoding.encodeChatData content root)]) := by
  by_cases henc : ChatEncoding.isEncoded content
  · rw [EncodedStore.effectiveContent, if_pos henc] at hparse
    simp [EncodedStore.readThreadFile, h, henc, hparse, ht]
  · rw [EncodedStore.effectiveContent, if_neg henc] at hparse
    simp [EncodedStore.readThreadFile, h, henc, hparse, ht]

theorem encodedListThreads_of_read (root : JStr) (st : ChatState) (migFail : Bool)
    (idx : ThreadsIndex) (ops : List FsOp)
    (h : EncodedStore.readThreadsIndex root st migFail = (.ok idx, ops)) :
    EncodedStore.listThreads root st migFail =
      (.ok (sortByCmp summaryCmp idx.threads), ops) := by
  simp [EncodedStore.listThreads, h]

theorem encodedListThreads_of_read_error (root : JStr) (st : ChatState) (migFail : Bool)
    (e : CErr) (ops : List FsOp)
    (h : EncodedStore.readThreadsIndex root st migFail = (.error e, ops)) :
    EncodedStore.listThreads root st migFail = (.error e, ops) := by
  simp [EncodedStore.listThreads, h]

theorem encryptedIndex_enc_parsefail (root content : JStr) (st : ChatState)
    (iv : List Nat) (migFail : Bool) (d : JStr) (h : st.index = .file content)
    (henc : ChatEncryption.isEncrypted content = true)
    (hdec : ChatEncryption.decryptChatData content root = some d)
    (hparse : jsonParse d = none) :
    EncryptedStore.readThreadsIndex root st iv migFail = (.error .readFailed, []) := by
  simp [EncryptedStore.readThreadsIndex, h, henc, hdec, hparse]

theorem encryptedThread_enc_parsefail (root tid content : JStr) (st : ChatState)
    (iv : List Nat) (migFail : Bool) (d : JStr) (h : threadSlot st tid = .file content)
    (henc : ChatEncryption.isEncrypted content = true)
    (hdec : ChatEncryption.decryptChatData content root = some d)
    (hparse : jsonParse d = none) :
    EncryptedStore.readThreadFile root st tid iv migFail = (.error .readFailed, []) := by
  simp [EncryptedStore.readThreadFile, h, henc, hdec, hparse]

/-- Counterexample to C7: in the encryption-based store variant, an index
file whose content decrypts successfully (here, the encryption of the
non-JSON text `not json`) but fails `JSON.parse` is NOT deleted — the read
performs no file operation at all and raises `ReadFailed` instead of
returning the empty index. -/
theorem C7_counterexample_encrypted_no_delete :
    EncryptedStore.readThreadsIndex fxRoot
      ⟨.file (ChatEncryption.encryptChatData (strChars ("not json")) fxRoot
        (List.replicate 16 0)), []⟩ (List.replicate 16 0) false
      = (.error .readFailed, []) :=
  encryptedIndex_enc_parsefail fxRoot
    (ChatEncryption.encryptChatData (strChars ("not json")) fxRoot (List.replicate 16 0))
    _ _ _ (strChars ("not json")) rfl
    (encryptChatData_isEncrypted (strChars ("not json")) fxRoot (List.replicate 16 0))
    (encryptChatData_roundtrip (strChars ("not json")) fxRoot (List.replicate 16 0)
      (by decide) (by decide))
    (by decide)

/-- Claim C7 (amended): in the base64-encoding store, content that decodes
through the codec (the decode is total there) but fails `JSON.parse` gets
its file deleted — the index read returns the empty index and the thread
read surfaces `ReadFailed`, each with the unlink as the final file
operation.  In the encryption-based store variant, content that decrypts
successfully but fails `JSON.parse` raises `ReadFailed` for both files
without deleting anything. -/
theorem C7_parse_failure_deletes_file :
    (∀ (root content : JStr) (st : ChatState) (migFail : Bool),
      st.index = .file content →
      jsonParse (EncodedStore.effectiveContent root content) = none →
      (EncodedStore.readThreadsIndex root st migFail).1 = .ok ⟨[]⟩ ∧
      ((EncodedStore.readThreadsIndex root st migFail).2).getLast?
        = some (.unlink .indexPath)) ∧
    (∀ (root tid content : JStr) (st : ChatState) (migFail : Bool),
      threadSlot st tid = .file content →
      jsonParse (EncodedStore.effectiveContent root content) = none →
      (EncodedStore.readThreadFile root st tid migFail).1 = .error .readFailed ∧
      ((EncodedStore.readThreadFile root st tid migFail).2).getLast?
        = some (.unlink (.threadPath tid))) ∧
    (∀ (root content : JStr) (st : ChatState) (iv : List Nat) (migFail : Bool) (d : JStr),
      st.index = .file content → ChatEncryption.isEncrypted content = true →
      ChatEncryption.decryptChatData content root = some d → jsonParse d = none →
      EncryptedStore.readThreadsIndex root st iv migFail = (.error .readFailed, [])) ∧
    (∀ (root tid content : JStr) (st : ChatState) (iv : List Nat) (migFail : Bool)
        (d : JStr),
      threadSlot st tid = .file content → ChatEncryption.isEncrypted content = true →
      ChatEncryption.decryptChatData content root = some d → jsonParse d = none →
      EncryptedStore.readThreadFile root st tid iv migFail
        = (.error .readFailed, [])) := by
  refine ⟨?_, ?_, ?_, ?_⟩
  · intro root content st migFail h hparse
    rw [encodedIndex_parsefail root content st migFail h hparse]
    exact ⟨rfl, List.getLast?_concat _⟩
  · intro root tid content st migFail h hparse
    rw [encodedThread_parsefail root tid content st migFail h hparse]
    exact ⟨rfl, List.getLast?_concat _⟩
  · intro root content st iv migFail d h henc hdec hparse
    exact encryptedIndex_enc_parsefail root content st iv migFail d h henc hdec hparse
  · intro root tid content st iv migFail d h henc hdec hparse
    exact encryptedThread_enc_parsefail root tid content st iv migFail d h henc hdec hparse

/-- Witness for C7 (amended) on concrete corrupted content. -/
theorem C7_parse_failure_deletes_file_witness :
    ((EncodedStore.readThreadsIndex (strChars ("/proj"))
        ⟨.file (strChars ("????")), []⟩ false).1 = .ok ⟨[]⟩ ∧
     ((EncodedStore.readThreadsIndex (strChars ("/proj"))
        ⟨.file (strChars ("????")), []⟩ false).2).getLast?
        = some (.unlink .indexPath)) :=
  C7_parse_failure_deletes_file.1 (strChars ("/proj")) (strChars ("????"))
    ⟨.file (strChars ("????")), []⟩ false rfl (by decide)

/-! ## Encrypted-store read lemmas (for the C2 counterexample) -/

theorem encryptedIndex_plain_parsefail (root content : JStr) (st : ChatState)
    (iv : List Nat) (migFail : Bool) (h : st.index = .file content)
    (henc : ChatEncryption.isEncrypted content = false)
    (hparse : jsonParse content = none) :
    EncryptedStore.readThreadsIndex root st iv migFail =
      (.error .readFailed,
        if migFail then []
        else [.write .indexPath (ChatEncryption.encryptChatData content root iv)]) := by
  simp [EncryptedStore.readThreadsIndex, h, henc, hparse]

theorem encryptedListThreads_of_read_error (root : JStr) (st : ChatState) (iv : List Nat)
    (migFail : Bool) (e : CErr) (ops : List FsOp)
    (h : EncryptedStore.readThreadsIndex root st iv migFail = (.error e, ops)) :
    EncryptedStore.listThreads root st iv migFail = (.error e, ops) := by
  simp [EncryptedStore.listThreads, h]

/-- Counterexample to C2: in the encryption-based store variant, an index
file holding corrupted (non-JSON, unencrypted-looking) bytes makes
`listThreads` raise `ReadFailed` instead of returning the empty list. -/
theorem C2_counterexample_encrypted_listThreads_throws :
    (EncryptedStore.listThreads (strChars ("/proj"))
      ⟨.file (strChars ("still not json")), []⟩ (List.replicate 16 0) false).1
      = .error .readFailed := by
  rw [encryptedListThreads_of_read_error _ _ _ _ _ _
    (encryptedIndex_plain_parsefail _ _ _ _ _ rfl (by decide) (by decide))]

/-- Claim C2 (amended): in the base64-encoding store, `listThreads` returns
the empty list when the index file is missing and when its content is
corrupted (fails to parse after decoding), deleting the corrupted file; a
non-ENOENT I/O read failure instead raises `ReadFailed`.  (In the
encryption-based store variant, corrupted index content raises `ReadFailed`
— see the counterexample.) -/
theorem C2_corrupt_index_empty_list :
    (∀ (root : JStr) (st : ChatState) (migFail : Bool), st.index = .absent →
      EncodedStore.listThreads root st migFail = (.ok [], [])) ∧
    (∀ (root content : JStr) (st : ChatState) (migFail : Bool),
      st.index = .file content →
      jsonParse (EncodedStore.effectiveContent root content) = none →
      (EncodedStore.listThreads root st migFail).1 = .ok []) ∧
    (∀ (root : JStr) (st : ChatState) (migFail : Bool), st.index = .ioError →
      (EncodedStore.listThreads root st migFail).1 = .error .readFailed) := by
  refine ⟨?_, ?_, ?_⟩
  · intro root st migFail h
    have hread : EncodedStore.readThreadsIndex root st migFail = (.ok ⟨[]⟩, []) := by
      simp [EncodedStore.readThreadsIndex, h]
    rw [encodedListThreads_of_read _ _ _ _ _ hread]
    rfl
  · intro root content st migFail h hparse
    rw [encodedListThreads_of_read _ _ _ _ _
      (encodedIndex_parsefail root content st migFail h hparse)]
    rfl
  · intro root st migFail h
    have hread : EncodedStore.readThreadsIndex root st migFail
        = (.error .readFailed, []) := by
      simp [EncodedStore.readThreadsIndex, h]
    rw [encodedListThreads_of_read_error _ _ _ _ _ hread]

/-- Witness for C2 (amended) on concrete corrupted content. -/
theorem C2_corrupt_index_empty_list_witness :
    (EncodedStore.listThreads (strChars ("/proj"))
      ⟨.file (strChars ("totally #corrupt# bytes")), []⟩ false).1 = .ok [] :=
  C2_corrupt_index_empty_list.2.1 (strChars ("/proj")) (strChars ("totally #corrupt# bytes"))
    ⟨.file (strChars ("totally #corrupt# bytes")), []⟩ false rfl (by decide)

/-- Counterexample to C3: an index file already in generation 2 (base64 of
valid JSON) is read successfully but no write-back happens — the operation
trace is empty, though the claim asserts a re-serialising write for
generation-2 reads as well. -/
theorem C3_counterexample_gen2_read_no_writeback :
    ChatEncoding.isEncoded
      (ChatEncoding.encodeChatData (stringifyTop (indexToJson ⟨[]⟩)) (strChars ("/proj")))
      = true ∧
    EncodedStore.readThreadsIndex (strChars ("/proj"))
      ⟨.file (ChatEncoding.encodeChatData (stringifyTop (indexToJson ⟨[]⟩))
        (strChars ("/proj"))), []⟩ false
      = (.ok ⟨[]⟩, []) := by
  constructor
  · decide
  · decide

/-- Claim C3 (amended): on a successful generation-1 (plain JSON) read of
the index or a thread file, each store variant re-serialises the raw
content in its own newest supported generation (base64 in the encoding
store, AES-256-GCM in the encryption store) and writes it back to the same
path; when that write-back fails the failure is swallowed and the decoded
data is still returned (the result does not depend on `migFail`).
Generation-2 content is read only by the encoding store, where it already
is the newest generation and is returned without any write. -/
theorem C3_gen1_writeback_gen2_untouched :
    (∀ (root content : JStr) (st : ChatState) (migFail : Bool) (j : Json)
        (idx : ThreadsIndex),
      st.index = .file content → ChatEncoding.isEncoded content = false →
      jsonParse content = some j → indexOfJson j = some idx →
      EncodedStore.readThreadsIndex root st migFail =
        (.ok idx,
          if migFail then []
          else [.write .indexPath (ChatEncoding.encodeChatData content root)])) ∧
    (∀ (root tid content : JStr) (st : ChatState) (migFail : Bool) (j : Json)
        (t : Thread),
      threadSlot st tid = .file content → ChatEncoding.isEncoded content = false →
      jsonParse content = some j → threadOfJson j = some t →
      EncodedStore.readThreadFile root st tid migFail =
        (.ok t,
          if migFail then []
          else [.write (.threadPath tid) (ChatEncoding.encodeChatData content root)])) ∧
    (∀ (root content : JStr) (st : ChatState) (migFail : Bool) (j : Json)
        (idx : ThreadsIndex),
      st.index = .file content → ChatEncoding.isEncoded content = true →
      jsonParse (ChatEncoding.decodeChatData content root) = some j →
      indexOfJson j = some idx →
      EncodedStore.readThreadsIndex root st migFail = (.ok idx, [])) ∧
    (∀ (root tid content : JStr) (st : ChatState) (migFail : Bool) (j : Json)
        (t : Thread),
      threadSlot st tid = .file content → ChatEncoding.isEncoded content = true →
      jsonParse (ChatEncoding.decodeChatData content root) = some j →
      threadOfJson j = some t →
      EncodedStore.readThreadFile root st tid migFail = (.ok t, [])) ∧
    (∀ (root content : JStr) (st : ChatState) (iv : List Nat) (migFail : Bool)
        (j : Json) (idx : ThreadsIndex),
      st.index = .file content → ChatEncryption.isEncrypted content = false →
      jsonParse content = some j → indexOfJson j = some idx →
      EncryptedStore.readThreadsIndex root st iv migFail =
        (.ok idx,
          if migFail then []
          else [.write .indexPath (ChatEncryption.encryptChatData content root iv)])) ∧
    (∀ (root tid content : JStr) (st : ChatState) (iv : List Nat) (migFail : Bool)
        (j : Json) (t : Thread),
      threadSlot st tid = .file content → ChatEncryption.isEncrypted content = false →
      jsonParse content = some j → threadOfJson j = some t →
      EncryptedStore.readThreadFile root st tid iv migFail =
        (.ok t,
          if migFail then []
          else [.write (.threadPath tid)
            (ChatEncryption.encryptChatData content root iv)])) := by
  refine ⟨?_, ?_, ?_, ?_, ?_, ?_⟩
  · intro root content st migFail j idx h henc hparse hidx
    have heff : jsonParse (EncodedStore.effectiveContent root content) = some j := by
      rw [EncodedStore.effectiveContent, if_neg (by simp [henc])]
      exact hparse
    rw [encodedIndex_ok root content st migFail j idx h heff hidx, henc]
    simp
  · intro root tid content st migFail j t h henc hparse ht
    have heff : jsonParse (EncodedStore.effectiveContent root content) = some j := by
      rw [EncodedStore.effectiveContent, if_neg (by simp [henc])]
      exact hparse
    rw [encodedThread_ok root tid content st migFail j t h heff ht, henc]
    simp
  · intro root content st migFail j idx h henc hparse hidx
    have heff : jsonParse (EncodedStore.effectiveContent root content) = some j := by
      rw [EncodedStore.effectiveContent, if_pos henc]
      exact hparse
    rw [encodedIndex_ok root content st migFail j idx h heff hidx, henc]
    simp
  · intro root tid content st migFail j t h henc hparse ht
    have heff : jsonParse (EncodedStore.effectiveContent root content) = some j := by
      rw [EncodedStore.effectiveContent, if_pos henc]
      exact hparse
    rw [encodedThread_ok root tid content st migFail j t h heff ht, henc]
    simp
  · intro root content st iv migFail j idx h henc hparse hidx
    simp [EncryptedStore.readThreadsIndex, h, henc, hparse, hidx]
  · intro root tid content st iv migFail j t h henc hparse ht
    simp [EncryptedStore.readThreadFile, h, henc, hparse, ht]

/-- Witness for C3 (amended): a concrete generation-1 index is re-encoded
and written back while its data is returned. -/
theorem C3_gen1_writeback_gen2_untouched_witness :
    EncodedStore.readThreadsIndex (strChars ("/proj"))
      ⟨.file (stringifyTop (indexToJson ⟨[]⟩)), []⟩ false =
      (.ok ⟨[]⟩,
        [.write .indexPath (ChatEncoding.encodeChatData
          (stringifyTop (indexToJson ⟨[]⟩)) (strChars ("/proj")))]) := by
  have h := C3_gen1_writeback_gen2_untouched.1 (strChars ("/proj"))
    (stringifyTop (indexToJson ⟨[]⟩))
    ⟨.file (stringifyTop (indexToJson ⟨[]⟩)), []⟩ false
    (indexToJson ⟨[]⟩) ⟨[]⟩ rfl (by decide) (by decide) (by decide)
  simpa using h

set_option maxRecDepth 8000 in
/-- Counterexample to C6: `deleteThread` performs its index write before
touching the thread file — its trace is the index write followed by the
thread-file unlink, so the thread file is not written (or removed) first. -/
theorem C6_counterexample_deleteThread_index_first :
    (EncodedStore.deleteThread (strChars ("/proj"))
        ⟨.file (ChatEncoding.encodeChatData
          (stringifyTop (indexToJson ⟨[⟨strChars ("t1"), strChars ("T"),
            strChars ("2024-01-01T00:00:00.000Z"), strChars ("2024-01-01T00:00:00.000Z"),
            strChars ("active"), none⟩]⟩)) (strChars ("/proj"))), []⟩
        (strChars ("t1")) false).1 = .ok () ∧
    ((EncodedStore.deleteThread (strChars ("/proj"))
        ⟨.file (ChatEncoding.encodeChatData
          (stringifyTop (indexToJson ⟨[⟨strChars ("t1"), strChars ("T"),
            strChars ("2024-01-01T00:00:00.000Z"), strChars ("2024-01-01T00:00:00.000Z"),
            strChars ("active"), none⟩]⟩)) (strChars ("/proj"))), []⟩
        (strChars ("t1")) false).2).map FsOp.sig =
      [(.wr, .indexPath), (.ul, .threadPath (strChars ("t1")))] := by
  constructor
  · decide
  · decide

/-- Claim C6 (amended): in both store variants, `createThread`,
`appendMessage`, `renameThread`, `archiveThread` and (in the encoding
store, which alone has it) `clearMessages` write the thread file before the
index — given that their reads succeed, their traces end with the
thread-file write immediately followed by the index write, after any
migration write-backs performed by the reads; `deleteThread`, however,
writes the index first and only then unlinks the thread file. -/
theorem C6_thread_file_written_before_index :
    (∀ (root st newId now initMsg migFail idx opsIdx),
      EncodedStore.readThreadsIndex root st migFail = (.ok idx, opsIdx) →
      (EncodedStore.createThread root st newId now initMsg migFail).2 =
        [FsOp.mkdirChat,
         EncodedStore.threadWriteOp root
           { projectRoot := root, id := newId, title := EncodedStore.titleFor initMsg,
             createdAt := now, updatedAt := now, status := strChars ("active"),
             messages := match initMsg with | some m => [m] | none => [],
             context := none }] ++ opsIdx ++
        [EncodedStore.indexWriteOp root
          ⟨idx.threads ++
            [{ id := newId, title := EncodedStore.titleFor initMsg, createdAt := now,
               updatedAt := now, status := strChars ("active"),
               lastMessagePreview := initMsg.map (fun m => jsTake 100 m.content) }]⟩]) ∧
    (∀ (root st tid message now migFail t ops1 idx ops2),
      EncodedStore.readThreadFile root st tid migFail = (.ok t, ops1) →
      EncodedStore.readThreadsIndex root st migFail = (.ok idx, ops2) →
      (EncodedStore.appendMessage root st tid message now migFail).2 =
        ops1 ++ ops2 ++
        [EncodedStore.threadWriteOp root
           { t with messages := t.messages ++ [message], updatedAt := now },
         EncodedStore.indexWriteOp root
           ⟨EncodedStore.updateFirstSummary tid
             (fun s =>
               { s with updatedAt := now,
                        lastMessagePreview := some (jsTake 100 message.content) })
             idx.threads⟩]) ∧
    (∀ (root st tid title now migFail t ops1 idx ops2),
      EncodedStore.readThreadFile root st tid migFail = (.ok t, ops1) →
      EncodedStore.readThreadsIndex root st migFail = (.ok idx, ops2) →
      (EncodedStore.renameThread root st tid title now migFail).2 =
        ops1 ++ ops2 ++
        [EncodedStore.threadWriteOp root { t with title := title, updatedAt := now },
         EncodedStore.indexWriteOp root
           ⟨EncodedStore.updateFirstSummary tid
             (fun s => { s with title := title, updatedAt := now }) idx.threads⟩]) ∧
    (∀ (root st tid now migFail t ops1 idx ops2),
      EncodedStore.readThreadFile root st tid migFail = (.ok t, ops1) →
      EncodedStore.readThreadsIndex root st migFail = (.ok idx, ops2) →
      (EncodedStore.archiveThread root st tid now migFail).2 =
        ops1 ++ ops2 ++
        [EncodedStore.threadWriteOp root
           { t with status := strChars ("archived"), updatedAt := now },
         EncodedStore.indexWriteOp root
           ⟨EncodedStore.updateFirstSummary tid
             (fun s => { s with status := strChars ("archived"), updatedAt := now })
             idx.threads⟩]) ∧
    (∀ (root st tid now migFail t ops1 idx ops2),
      EncodedStore.readThreadFile root st tid migFail = (.ok t, ops1) →
      EncodedStore.readThreadsIndex root st migFail = (.ok idx, ops2) →
      (EncodedStore.clearMessages root st tid now migFail).2 =
        ops1 ++ ops2 ++
        [EncodedStore.threadWriteOp root { t with messages := [], updatedAt := now },
         EncodedStore.indexWriteOp root
           ⟨EncodedStore.updateFirstSummary tid
             (fun s => { s with updatedAt := now, lastMessagePreview := none })
             idx.threads⟩]) ∧
    (∀ (root st tid migFail idx ops),
      EncodedStore.readThreadsIndex root st migFail = (.ok idx, ops) →
      (EncodedStore.deleteThread root st tid migFail).2 =
        ops ++
        [EncodedStore.indexWriteOp root ⟨idx.threads.filter (fun s => ¬ (s.id = tid))⟩,
         .unlink (.threadPath tid)]) ∧
    (∀ (root : JStr) (st : ChatState) (newId now : JStr) (initMsg : Option ChatMessage)
        (ivMigI ivT ivI : List Nat) (migFail : Bool) (idx : ThreadsIndex)
        (opsIdx : List FsOp),
      EncryptedStore.readThreadsIndex root st ivMigI migFail = (.ok idx, opsIdx) →
      (EncryptedStore.createThread root st newId now initMsg ivMigI ivT ivI migFail).2 =
        [FsOp.mkdirChat,
         EncryptedStore.threadWriteOp root ivT
           { projectRoot := root, id := newId, title := EncodedStore.titleFor initMsg,
             createdAt := now, updatedAt := now, status := strChars ("active"),
             messages := (match initMsg with | some m => [m] | none => []),
             context := none }] ++ opsIdx ++
        [EncryptedStore.indexWriteOp root ivI
          ⟨idx.threads ++
            [{ id := newId, title := EncodedStore.titleFor initMsg, createdAt := now,
               updatedAt := now, status := strChars ("active"),
               lastMessagePreview := initMsg.map (fun m => jsTake 100 m.content) }]⟩]) ∧
    (∀ (root : JStr) (st : ChatState) (tid : JStr) (message : ChatMessage) (now : JStr)
        (ivMigT ivMigI ivT ivI : List Nat) (migFail : Bool) (t : Thread)
        (ops1 : List FsOp) (idx : ThreadsIndex) (ops2 : List FsOp),
      EncryptedStore.readThreadFile root st tid ivMigT migFail = (.ok t, ops1) →
      EncryptedStore.readThreadsIndex root st ivMigI migFail = (.ok idx, ops2) →
      (EncryptedStore.appendMessage root st tid message now ivMigT ivMigI ivT ivI
          migFail).2 =
        ops1 ++ ops2 ++
        [EncryptedStore.threadWriteOp root ivT
           { t with messages := t.messages ++ [message], updatedAt := now },
         EncryptedStore.indexWriteOp root ivI
           ⟨EncodedStore.updateFirstSummary tid
             (fun s =>
               { s with updatedAt := now,
                        lastMessagePreview := some (jsTake 100 message.content) })
             idx.threads⟩]) ∧
    (∀ (root : JStr) (st : ChatState) (tid title now : JStr)
        (ivMigT ivMigI ivT ivI : List Nat) (migFail : Bool) (t : Thread)
        (ops1 : List FsOp) (idx : ThreadsIndex) (ops2 : List FsOp),
      EncryptedStore.readThreadFile root st tid ivMigT migFail = (.ok t, ops1) →
      EncryptedStore.readThreadsIndex root st ivMigI migFail = (.ok idx, ops2) →
      (EncryptedStore.renameThread root st tid title now ivMigT ivMigI ivT ivI
          migFail).2 =
        ops1 ++ ops2 ++
        [EncryptedStore.threadWriteOp root ivT { t with title := title, updatedAt := now },
         EncryptedStore.indexWriteOp root ivI
           ⟨EncodedStore.updateFirstSummary tid
             (fun s => { s with title := title, updatedAt := now }) idx.threads⟩]) ∧
    (∀ (root : JStr) (st : ChatState) (tid now : JStr)
        (ivMigT ivMigI ivT ivI : List Nat) (migFail : Bool) (t : Thread)
        (ops1 : List FsOp) (idx : ThreadsIndex) (ops2 : List FsOp),
      EncryptedStore.readThreadFile root st tid ivMigT migFail = (.ok t, ops1) →
      EncryptedStore.readThreadsIndex root st ivMigI migFail = (.ok idx, ops2) →
      (EncryptedStore.archiveThread root st tid now ivMigT ivMigI ivT ivI migFail).2 =
        ops1 ++ ops2 ++
        [EncryptedStore.threadWriteOp root ivT
           { t with status := strChars ("archived"), updatedAt := now },
         EncryptedStore.indexWriteOp root ivI
           ⟨EncodedStore.updateFirstSummary tid
             (fun s => { s with status := strChars ("archived"), updatedAt := now })
             idx.threads⟩]) ∧
    (∀ (root : JStr) (st : ChatState) (tid : JStr) (ivMigI ivI : List Nat)
        (migFail : Bool) (idx : ThreadsIndex) (ops : List FsOp),
      EncryptedStore.readThreadsIndex root st ivMigI migFail = (.ok idx, ops) →
      (EncryptedStore.deleteThread root st tid ivMigI ivI migFail).2 =
        ops ++
        [EncryptedStore.indexWriteOp root ivI
           ⟨idx.threads.filter (fun s => ¬ (s.id = tid))⟩,
         .unlink (.threadPath tid)]) := by
  refine ⟨?_, ?_, ?_, ?_, ?_, ?_, ?_, ?_, ?_, ?_, ?_⟩
  · intro root st newId now initMsg migFail idx opsIdx hidx
    simp [EncodedStore.createThread, hidx]
  · intro root st tid message now migFail t ops1 idx ops2 ht hidx
    simp [EncodedStore.appendMessage, ht, hidx]
  · intro root st tid title now migFail t ops1 idx ops2 ht hidx
    simp [EncodedStore.renameThread, ht, hidx]
  · intro root st tid now migFail t ops1 idx ops2 ht hidx
    simp [EncodedStore.archiveThread, ht, hidx]
  · intro root st tid now migFail t ops1 idx ops2 ht hidx
    simp [EncodedStore.clearMessages, ht, hidx]
  · intro root st tid migFail idx ops hidx
    simp [EncodedStore.deleteThread, hidx]
  · intro root st newId now initMsg ivMigI ivT ivI migFail idx opsIdx hidx
    simp [EncryptedStore.createThread, hidx]
  · intro root st tid message now ivMigT ivMigI ivT ivI migFail t ops1 idx ops2 ht hidx
    simp [EncryptedStore.appendMessage, ht, hidx]
  · intro root st tid title now ivMigT ivMigI ivT ivI migFail t ops1 idx ops2 ht hidx
    simp [EncryptedStore.renameThread, ht, hidx]
  · intro root st tid now ivMigT ivMigI ivT ivI migFail t ops1 idx ops2 ht hidx
    simp [EncryptedStore.archiveThread, ht, hidx]
  · intro root st tid ivMigI ivI migFail idx ops hidx
    simp [EncryptedStore.deleteThread, hidx]

set_option maxRecDepth 8000 in
/-- Witness for C6 (amended): appending a message to a concrete stored
thread writes the thread file and then the index. -/
theorem C6_thread_file_written_before_index_witness :
    ((EncodedStore.appendMessage fxRoot fxState (strChars ("t1")) fxMsg fxNow
        false).2).map FsOp.sig =
      [(.wr, .threadPath (strChars ("t1"))), (.wr, .indexPath)] := by
  rw [C6_thread_file_written_before_index.2.1 fxRoot fxState (strChars ("t1")) fxMsg fxNow
    false fxThread [] ⟨[fxSummary]⟩ [] (by decide) (by decide)]
  decide

theorem sentenceSplitFirst_length_le (s : JStr) :
    (EncodedStore.sentenceSplitFirst s).length ≤ s.length := by
  induction s using EncodedStore.sentenceSplitFirst.induct with
  | case1 => simp [EncodedStore.sentenceSplitFirst]
  | case2 c => simp [EncodedStore.sentenceSplitFirst]
  | case3 c1 c2 rest h => simp [EncodedStore.sentenceSplitFirst, h]
  | case4 c1 c2 rest h ih =>
    simp only [EncodedStore.sentenceSplitFirst, if_neg h, List.length_cons]
    simp only [List.length_cons] at ih
    omega

/-- Claim C8: the title of a created thread — for a user initial message it
is the first sentence of the trimmed content when that sentence has at most
60 characters, and otherwise exactly 60 characters (the first 57 characters
of the trimmed content followed by an ellipsis); without an initial message,
or with a non-user role, it is the fixed default `New Chat`; and
`createThread` returns a thread carrying exactly this title. -/
theorem C8_createThread_title :
    (∀ m : ChatMessage, m.role = strChars ("user") →
      (EncodedStore.sentenceSplitFirst (jsTrim m.content)).length ≤ 60 →
      EncodedStore.titleFor (some m) = EncodedStore.sentenceSplitFirst (jsTrim m.content)) ∧
    (∀ m : ChatMessage, m.role = strChars ("user") →
      60 < (EncodedStore.sentenceSplitFirst (jsTrim m.content)).length →
      EncodedStore.titleFor (some m) = jsTake 57 (jsTrim m.content) ++ strChars ("...") ∧
      (EncodedStore.titleFor (some m)).length = 60) ∧
    (EncodedStore.titleFor none = strChars ("New Chat")) ∧
    (∀ m : ChatMessage, ¬ m.role = strChars ("user") →
      EncodedStore.titleFor (some m) = strChars ("New Chat")) ∧
    (∀ (root : JStr) (st : ChatState) (newId now : JStr) (initMsg : Option ChatMessage)
        (migFail : Bool) (idx : ThreadsIndex) (ops : List FsOp),
      EncodedStore.readThreadsIndex root st migFail = (.ok idx, ops) →
      (EncodedStore.createThread root st newId now initMsg migFail).1 =
        .ok { projectRoot := root, id := newId, title := EncodedStore.titleFor initMsg,
              createdAt := now, updatedAt := now, status := strChars ("active"),
              messages := (match initMsg with | some m => [m] | none => []),
              context := none }) := by
  refine ⟨?_, ?_, rfl, ?_, ?_⟩
  · intro m hrole hle
    simp [EncodedStore.titleFor, EncodedStore.generateTitle, hrole, hle]
  · intro m hrole hgt
    have hlen := sentenceSplitFirst_length_le (jsTrim m.content)
    have htext : 57 ≤ (jsTrim m.content).length := by omega
    have heq : EncodedStore.titleFor (some m)
        = jsTake 57 (jsTrim m.content) ++ strChars ("...") := by
      simp [EncodedStore.titleFor, EncodedStore.generateTitle, hrole]
      omega
    refine ⟨heq, ?_⟩
    rw [heq]
    simp only [jsTake, List.length_append, List.length_take]
    rw [min_eq_left htext]
    rfl
  · intro m hrole
    simp [EncodedStore.titleFor, hrole]
  · intro root st newId now initMsg migFail idx ops hidx
    simp [EncodedStore.createThread, hidx]

/-- Witness for C8: the 70-character terminator-free message yields a
60-character title. -/
theorem C8_createThread_title_witness :
    (EncodedStore.titleFor (some fxLongMsg)).length = 60 :=
  (C8_createThread_title.2.1 fxLongMsg (by decide) (by decide)).2
